import Mathlib

/-!
# liblo `src/address.c`: URL dialect, address descriptors

A shallow embedding of `src/src/address.c`.

* C strings are lists of characters (the bytes before the terminating NUL).
* A `char *` value is a `CStr`: the null pointer, a freshly allocated buffer
  nothing has been stored into, or a string.
* `sscanf` and `snprintf` are C library functions; they are embedded as
  interpreters of the format strings, so that every call in the source is
  written here with the very format string the source passes.
* Output on `stderr` is a list of `Diag` values returned next to the result.
* The program is embedded as built for a POSIX system with a C99 library
  (`WIN32` and `_MSC_VER` not defined) and with `ENABLE_IPV6`.
* What the operating system answers (`getaddrinfo`, `inet_pton`, `getifaddrs`)
  is a record `Os` given to the functions that ask; the calls they make are a
  list of `OsCall` values returned next to the result.
* `int` values are unbounded integers: strings longer than `INT_MAX` bytes are
  outside the model.
* `malloc`, `calloc` and `strdup` are taken to succeed.
-/

namespace Liblo

/-! ## C strings and the scratch buffers -/

/-- A value of type `char *`. `uninit` is a buffer obtained from `malloc`
into which nothing has been stored yet: its contents are indeterminate. -/
inductive CStr where
  | null
  | uninit
  | str (s : List Char)
deriving DecidableEq, Repr

/-- A pointer argument: the null pointer, or a pointer to a string. -/
def CStr.ofOption : Option (List Char) → CStr
  | none => .null
  | some s => .str s

/-- The test `if (p)` on a pointer. -/
def CStr.nonNull : CStr → Bool
  | .null => false
  | _ => true

/-- The function `isspace` of `<ctype.h>` in the C locale. -/
def isspace (c : Char) : Bool :=
  c = ' ' || c = '\t' || c = '\n' || c = '\x0b' || c = '\x0c' || c = '\r'

/-! ## `sscanf` -/

/-- One directive of a `scanf` format. Only what `address.c` uses is
interpreted: ordinary characters, `%s`, `%[...]`, and the assignment
suppressing `*`. Scansets are kept as a list of inclusive ranges. -/
inductive Directive where
  | white
  | lit (c : Char)
  | str (suppress : Bool)
  | set (suppress : Bool) (neg : Bool) (ranges : List (Char × Char))
  | unsupported
deriving DecidableEq, Repr

/-- Position of the format reader inside a format string. -/
inductive FmtState where
  | text
  | percent (suppress : Bool)
  | setOpen (suppress : Bool)
  | setFirst (suppress : Bool) (neg : Bool)
  | setBody (suppress : Bool) (neg : Bool) (ranges : List (Char × Char)) (last : Char)
deriving DecidableEq, Repr

/-- Reads a `scanf` format string into its directives. In a scanset a `]` or
`-` right after the opening `[` or `[^` is a member; `a-b` is a range. -/
def parseFormat : FmtState → List Char → List Directive
  | .text, [] => []
  | .text, c :: f =>
      if c = '%' then parseFormat (.percent false) f
      else if isspace c then .white :: parseFormat .text f
      else .lit c :: parseFormat .text f
  | .percent _, [] => [.unsupported]
  | .percent sup, c :: f =>
      if c = '*' then parseFormat (.percent true) f
      else if c = 's' then .str sup :: parseFormat .text f
      else if c = '[' then parseFormat (.setOpen sup) f
      else [.unsupported]
  | .setOpen _, [] => [.unsupported]
  | .setOpen sup, c :: f =>
      if c = '^' then parseFormat (.setFirst sup true) f
      else parseFormat (.setBody sup false [(c, c)] c) f
  | .setFirst _ _, [] => [.unsupported]
  | .setFirst sup neg, c :: f => parseFormat (.setBody sup neg [(c, c)] c) f
  | .setBody _ _ _ _, [] => [.unsupported]
  | .setBody sup neg rs last, c :: f =>
      if c = ']' then .set sup neg rs :: parseFormat .text f
      else if c = '-' then
        match f with
        | [] => [.unsupported]
        | d :: _ =>
            if d ≠ ']' ∧ last ≤ d then parseFormat (.setBody sup neg (rs ++ [(last, d)]) c) f
            else parseFormat (.setBody sup neg (rs ++ [(c, c)]) c) f
      else parseFormat (.setBody sup neg (rs ++ [(c, c)]) c) f

/-- Membership of a character in a scanset. -/
def inScanset (neg : Bool) (ranges : List (Char × Char)) (c : Char) : Bool :=
  (ranges.any fun r => decide (r.1 ≤ c) && decide (c ≤ r.2)) != neg

/-- What a call of `sscanf` yields: its return value, and the strings it
stored through its pointer arguments, in argument order. -/
structure ScanResult where
  ret : Int
  stored : List (List Char)
deriving DecidableEq, Repr

/-- The macro `EOF` of `<stdio.h>`. -/
def EOF : Int := -1

/-- The input ended before a directive could read a character (an input
failure): the result is `EOF` when nothing has been assigned yet, else the
number of assignments. This is the rule of glibc and musl, which count
assignments; a library that returns 0 once a suppressed conversion has completed
differs only on inputs that end after a `%*` conversion. -/
def inputFailure (acc : List (List Char)) : ScanResult :=
  ⟨if acc.length = 0 then EOF else acc.length, acc⟩

/-- A directive did not match the next input character: the number of
assignments made so far. -/
def matchingFailure (acc : List (List Char)) : ScanResult :=
  ⟨acc.length, acc⟩

/-- Runs the directives of a format over the input (C99 7.19.6.2). An ordinary
character must be the next input character. `%s` skips leading white space and
reads a non-empty run of non-space characters; `%[` skips nothing and reads a
non-empty run of members of its scanset. A suppressed conversion reads the same
input and stores nothing. The run stops at the first directive that fails. -/
def scan : List Directive → List Char → List (List Char) → ScanResult
  | [], _, acc => ⟨acc.length, acc⟩
  | .white :: ds, inp, acc => scan ds (inp.dropWhile isspace) acc
  | .lit c :: ds, inp, acc =>
      match inp with
      | [] => inputFailure acc
      | x :: rest => if x = c then scan ds rest acc else matchingFailure acc
  | .str sup :: ds, inp, acc =>
      match inp.dropWhile isspace with
      | [] => inputFailure acc
      | x :: rest =>
          let tok := (x :: rest).takeWhile fun c => !isspace c
          let rest2 := (x :: rest).dropWhile fun c => !isspace c
          scan ds rest2 (if sup then acc else acc ++ [tok])
  | .set sup neg rs :: ds, inp, acc =>
      match inp with
      | [] => inputFailure acc
      | x :: rest =>
          if inScanset neg rs x then
            let tok := (x :: rest).takeWhile (inScanset neg rs)
            let rest2 := (x :: rest).dropWhile (inScanset neg rs)
            scan ds rest2 (if sup then acc else acc ++ [tok])
          else matchingFailure acc
  | .unsupported :: _, _, acc => matchingFailure acc

/-- The call `sscanf(str, format, ...)`. -/
def sscanf (str : List Char) (format : String) : ScanResult :=
  scan (parseFormat .text format.toList) str []

/-- Contents of a scratch buffer after a call of `sscanf` that was given the
buffer as its only pointer argument. -/
def store (buf : CStr) (r : ScanResult) : CStr :=
  match r.stored with
  | [] => buf
  | tok :: _ => .str tok

/-! ## `snprintf` -/

/-- The output of a `printf` format whose only conversions are `%s`. There is
no output (`none`) when the behaviour is undefined: a `%s` without an argument,
or with one that is the null pointer or an indeterminate buffer. -/
def printfOut : List Char → List CStr → Option (List Char)
  | [], _ => some []
  | '%' :: 's' :: f, .str a :: as => (printfOut f as).map fun out => a ++ out
  | '%' :: 's' :: _, _ => none
  | c :: f, as => (printfOut f as).map fun out => c :: out

/-! ## Data model -/

/-- Modelled from the spec: the identifier `LO_UDP` of the transport UDP. It is
declared in `lo/lo_lowlevel.h`, which is not among the sources; the spec names
the transport without a number, the number is the one of that header. -/
def LO_UDP : Int := 1

/-- Modelled from the spec: the identifier `LO_UNIX` of the transport UNIX
(declared in `lo/lo_lowlevel.h`, as `LO_UDP`). -/
def LO_UNIX : Int := 2

/-- Modelled from the spec: the identifier `LO_TCP` of the transport TCP
(declared in `lo/lo_lowlevel.h`, as `LO_UDP`). -/
def LO_TCP : Int := 4

/-- A line written to `stderr`: `assumingUdp` is the line
`warning: no protocol specified in URL, assuming UDP.`, and `notSupported p` is
the line `protocol '%s' not supported by this version` with its argument `p`
(both begin with `PACKAGE_NAME` of `config.h`). -/
inductive Diag where
  | assumingUdp
  | notSupported (proto : CStr)
deriving DecidableEq, Repr

/-- One entry of the candidate list `getaddrinfo` returns (`struct addrinfo`
of `<netdb.h>`): its address family, socket type and address bytes. -/
structure AddrInfo where
  ai_family : Int
  ai_socktype : Int
  ai_addr : List Nat
deriving DecidableEq, Repr

/-- Modelled from the spec: the interface binding `struct _lo_inaddr` of
`lo_types_internal.h`, which is not among the sources (`bound_interface` in the
data model of the spec): address bytes, their size, and the interface name. -/
structure InAddr where
  a : List Nat
  size : Nat
  iface : CStr
deriving DecidableEq, Repr

/-- Modelled from the spec: the descriptor `struct _lo_address` of
`lo_types_internal.h`, which is not among the sources (`AddressDescriptor` in
the data model of the spec), with the fields `address.c` reads and writes. -/
structure Address where
  host : CStr
  socket : Int
  port : CStr
  protocol : Int
  ai : Option (List AddrInfo)
  errnum : Int
  errstr : CStr
  ttl : Int
  addr : InAddr
deriving DecidableEq, Repr

/-- The function `strdup`: the copy has the contents of the original (a copy
of an indeterminate buffer is indeterminate). -/
def strdup (s : CStr) : CStr := s

/-! ## Constructors -/

/-- Embeds `lo_address_new_with_proto`; `calloc` is taken to succeed. -/
def lo_address_new_with_proto (proto : Int) (host port : CStr) : Option Address :=
  if proto ≠ LO_UDP ∧ proto ≠ LO_TCP ∧ proto ≠ LO_UNIX then none
  else some
    { ai := none
      socket := -1
      protocol := proto
      host :=
        if proto = LO_UNIX then strdup (.str "localhost".toList)
        else if host.nonNull then strdup host
        else strdup (.str "localhost".toList)
      port := if port.nonNull then strdup port else .null
      ttl := -1
      errnum := 0
      errstr := .null
      addr := { a := [], size := 0, iface := .null } }

/-- Embeds `lo_address_new`. -/
def lo_address_new (host port : CStr) : Option Address :=
  lo_address_new_with_proto LO_UDP host port

/-! ## URL extractors -/

/-- Embeds `lo_url_get_protocol`. The argument is `none` for the null
pointer. -/
def lo_url_get_protocol (url : Option (List Char)) : CStr × List Diag :=
  match url with
  | none => (.null, [])
  | some url =>
      let protocol := CStr.uninit
      if (sscanf url "osc://%s").ret ≠ 0 then
        (strdup (.str "udp".toList), [Diag.assumingUdp])
      else if (sscanf url "osc.%[^:/[]").ret ≠ 0 then
        (strdup (store protocol (sscanf url "osc.%[^:/[]")), [])
      else (.null, [])

/-- Embeds `lo_url_get_protocol_id`; `strncmp(url, s, n) == 0` is
`url.take n = s`. -/
def lo_url_get_protocol_id (url : Option (List Char)) : Int × List Diag :=
  match url with
  | none => (-1, [])
  | some url =>
      if url.take 4 = "osc:".toList then (LO_UDP, [Diag.assumingUdp])
      else if url.take 8 = "osc.udp:".toList then (LO_UDP, [])
      else if url.take 8 = "osc.tcp:".toList then (LO_TCP, [])
      else if url.take 9 = "osc.unix:".toList then (LO_UNIX, [])
      else (-1, [])

/-- Embeds `lo_url_get_hostname`. -/
def lo_url_get_hostname (url : List Char) : CStr :=
  let hostname := CStr.uninit
  if (sscanf url "osc://%[^[:/]").ret ≠ 0 then
    store hostname (sscanf url "osc://%[^[:/]")
  else if (sscanf url "osc.%*[^:/]://[%[^]/]]").ret ≠ 0 then
    store hostname (sscanf url "osc.%*[^:/]://[%[^]/]]")
  else if (sscanf url "osc.%*[^:/]://%[^[:/]").ret ≠ 0 then
    store hostname (sscanf url "osc.%*[^:/]://%[^[:/]")
  else .null

/-- Embeds `lo_url_get_port`. -/
def lo_url_get_port (url : List Char) : CStr :=
  let port := CStr.uninit
  if (sscanf url "osc://%*[^:]:%[0-9]").ret ≠ 0 then
    store port (sscanf url "osc://%*[^:]:%[0-9]")
  else if (sscanf url "osc.%*[^:]://%*[^:]:%[0-9]").ret ≠ 0 then
    store port (sscanf url "osc.%*[^:]://%*[^:]:%[0-9]")
  else if (sscanf url "osc://[%*[^]]]:%[0-9]").ret ≠ 0 then
    store port (sscanf url "osc://[%*[^]]]:%[0-9]")
  else if (sscanf url "osc.%*[^:]://[%*[^]]]:%[0-9]").ret ≠ 0 then
    store port (sscanf url "osc.%*[^:]://[%*[^]]]:%[0-9]")
  else .null

/-- Embeds `lo_url_get_path`. -/
def lo_url_get_path (url : List Char) : CStr :=
  let path := CStr.uninit
  if (sscanf url "osc://%*[^:]:%*[0-9]%s").ret ≠ 0 then
    store path (sscanf url "osc://%*[^:]:%*[0-9]%s")
  else if (sscanf url "osc.%*[^:]://%*[^:]:%*[0-9]%s").ret = 1 then
    store path (sscanf url "osc.%*[^:]://%*[^:]:%*[0-9]%s")
  else if (sscanf url "osc.unix://%*[^/]%s").ret = 1 then
    store path (sscanf url "osc.unix://%*[^/]%s")
  else if (sscanf url "osc.%*[^:]://%s").ret ≠ 0 then
    store path (sscanf url "osc.%*[^:]://%s")
  else .null

/-- Embeds `lo_address_new_from_url`, with the lines it and its callees write
to `stderr`. -/
def lo_address_new_from_url (url : Option (List Char)) : Option Address × List Diag :=
  match url with
  | none => (none, [])
  | some [] => (none, [])
  | some url =>
      let (protocol, w) := lo_url_get_protocol_id (some url)
      if protocol = LO_UDP ∨ protocol = LO_TCP then
        let host := lo_url_get_hostname url
        let port := lo_url_get_port url
        (lo_address_new_with_proto protocol host port, w)
      else if protocol = LO_UNIX then
        let port := lo_url_get_path url
        (lo_address_new_with_proto LO_UNIX .null port, w)
      else
        let (proto, w2) := lo_url_get_protocol (some url)
        (none, w ++ w2 ++ [Diag.notSupported proto])

/-! ## Accessors and rendering -/

/-- Embeds `lo_address_get_hostname` on a non-null descriptor. -/
def lo_address_get_hostname (a : Address) : CStr := a.host

/-- Embeds `lo_address_get_protocol` on a non-null descriptor. -/
def lo_address_get_protocol (a : Address) : Int := a.protocol

/-- Embeds `lo_address_get_port` on a non-null descriptor. -/
def lo_address_get_port (a : Address) : CStr := a.port

/-- Embeds `get_protocol_name`. -/
def get_protocol_name (proto : Int) : CStr :=
  if proto = LO_UDP then .str "udp".toList
  else if proto = LO_TCP then .str "tcp".toList
  else if proto = LO_UNIX then .str "unix".toList
  else .null

/-- Embeds `lo_address_get_url`. The first `snprintf` only measures; the
second writes at most `ret` characters into a buffer of `ret + 2` bytes. There
is no result (`none`) where the behaviour is undefined (see `printfOut`, and
`strchr` on an indeterminate host). -/
def lo_address_get_url (a : Address) : Option (List Char) :=
  match a.host with
  | .str host =>
      let needquote := host.contains ':'
      let fmt := if needquote then "osc.%s://[%s]:%s/" else "osc.%s://%s:%s/"
      match printfOut fmt.toList [get_protocol_name a.protocol, a.host, a.port] with
      | none => none
      | some out =>
          let ret : Int := out.length
          let ret := if ret ≤ 0 then 1023 else ret
          some (out.take ret.toNat)
  | _ => none

/-- Embeds `lo_address_get_url` once more, keeping the value the measuring
`snprintf(NULL, 0, ...)` returned next to the rendered string. -/
def lo_address_get_url_run (a : Address) : Option (Int × List Char) :=
  match a.host with
  | .str host =>
      let needquote := host.contains ':'
      let fmt := if needquote then "osc.%s://[%s]:%s/" else "osc.%s://%s:%s/"
      match printfOut fmt.toList [get_protocol_name a.protocol, a.host, a.port] with
      | none => none
      | some out =>
          let ret : Int := out.length
          let size := if ret ≤ 0 then 1023 else ret
          some (ret, out.take size.toNat)
  | _ => none

/-! ## The operating system -/

/-- Address family `AF_INET` of `<sys/socket.h>` (its value on Linux). -/
def AF_INET : Int := 2

/-- Address family `AF_INET6` of `<sys/socket.h>` (its value on Linux). -/
def AF_INET6 : Int := 10

/-- Protocol family `PF_UNSPEC` of `<sys/socket.h>`. -/
def PF_UNSPEC : Int := 0

/-- Socket type `SOCK_STREAM` of `<sys/socket.h>` (its value on Linux). -/
def SOCK_STREAM : Int := 1

/-- Socket type `SOCK_DGRAM` of `<sys/socket.h>` (its value on Linux). -/
def SOCK_DGRAM : Int := 2

/-- The address of an interface (`struct sockaddr`): its family, and the bytes
of its `sin_addr` or `sin6_addr`. -/
structure SockAddr where
  sa_family : Int
  addr : List Nat
deriving DecidableEq, Repr

/-- One entry of the list `getifaddrs` returns (`struct ifaddrs`). The name is
never the null pointer; the address may be. -/
structure IfAddrs where
  ifa_name : List Char
  ifa_addr : Option SockAddr
deriving DecidableEq, Repr

/-- A call into the operating system that takes or gives back a resource, or
asks it a question. Heap memory of strings is not followed. -/
inductive OsCall where
  | getaddrinfo (node service : CStr) (family socktype : Int)
  | freeaddrinfo (ai : List AddrInfo)
  | closesocket (s : Int)
  | inet_pton (af : Int) (src : List Char)
  | getifaddrs
  | freeifaddrs
deriving DecidableEq, Repr

/-- What the operating system answers. `getaddrinfo node service family
socktype` is the return value and the list stored through the last argument;
`inet_pton af src` is the return value and the bytes stored; `getifaddrs` is
the list of interfaces, or `none` when the call returns -1. -/
structure Os where
  getaddrinfo : CStr → CStr → Int → Int → Int × List AddrInfo
  gai_strerror : Int → List Char
  strerror : Int → CStr
  inet_pton : Int → List Char → Int × List Nat
  getifaddrs : Option (List IfAddrs)

/-- The node `a->ai` points to; `none` stands for the null pointer (no list, or
an empty one). -/
def Address.aiFirst (a : Address) : Option AddrInfo :=
  a.ai.bind List.head?

/-! ## Destruction, errors, TTL -/

/-- Embeds `lo_address_free`: the resources given back, in order. The argument
is `none` for the null pointer. -/
def lo_address_free (a : Option Address) : List OsCall :=
  match a with
  | none => []
  | some a =>
      (if a.socket ≠ -1 then [OsCall.closesocket a.socket] else [])
        ++ (match a.ai with
            | some ai => if a.aiFirst.isSome then [OsCall.freeaddrinfo ai] else []
            | none => [])

/-- Embeds `lo_address_errno`. -/
def lo_address_errno (a : Address) : Int := a.errnum

/-- Embeds `lo_address_errstr`. -/
def lo_address_errstr (os : Os) (a : Address) : CStr :=
  if a.errstr.nonNull then a.errstr
  else
    let msg := os.strerror a.errnum
    if msg.nonNull then msg else .str "unknown error".toList

/-- Embeds `lo_address_set_ttl`. -/
def lo_address_set_ttl (t : Address) (ttl : Int) : Address :=
  if t.protocol = LO_UDP then { t with ttl := ttl } else t

/-- Embeds `lo_address_get_ttl`. -/
def lo_address_get_ttl (t : Address) : Int := t.ttl

/-! ## Resolution -/

/-- Embeds `lo_address_resolve`, built with `ENABLE_IPV6`: the return value, the
descriptor afterwards, and the calls made. -/
def lo_address_resolve (os : Os) (a : Address) : Int × Address × List OsCall :=
  if a.protocol = LO_UDP ∨ a.protocol = LO_TCP then
    let family := PF_UNSPEC
    let socktype := if a.protocol = LO_UDP then SOCK_DGRAM else SOCK_STREAM
    let ret := (os.getaddrinfo a.host a.port family socktype).1
    let ai := (os.getaddrinfo a.host a.port family socktype).2
    if ret ≠ 0 then
      (-1, { a with errnum := ret, errstr := .str (os.gai_strerror ret), ai := none },
        [OsCall.getaddrinfo a.host a.port family socktype])
    else
      (0, { a with ai := some ai }, [OsCall.getaddrinfo a.host a.port family socktype])
  else (0, a, [])

/-! ## Interface binding -/

/-- The test `memcmp(x, y, n) == 0`. -/
def memcmpEq (x y : List Nat) (n : Nat) : Bool :=
  x.take n = y.take n

/-- The body of `if (ip) { ... }` in the loop of `lo_inaddr_find_iface`: the
binding after a `break`, or `none` when the loop body goes on. `a` holds the
bytes `inet_pton` stored. -/
def find_iface_by_ip (fam : Int) (a : List Nat) (sa : SockAddr) (t : InAddr) : Option InAddr :=
  if sa.sa_family = AF_INET ∧ fam = AF_INET then
    if memcmpEq sa.addr a 4 then some { t with size := 4, a := a.take 4 } else none
  else if sa.sa_family = AF_INET6 ∧ fam = AF_INET6 then
    if memcmpEq sa.addr a 16 then some { t with size := 16, a := a.take 16 } else none
  else none

/-- The body of `if (iface) { ... }` in the loop of `lo_inaddr_find_iface`: the
binding after a `break`, or `none` when the loop body goes on. -/
def find_iface_by_name (fam : Int) (iface : List Char) (ifa : IfAddrs) (sa : SockAddr)
    (t : InAddr) : Option InAddr :=
  if sa.sa_family = fam ∧ ifa.ifa_name = iface then
    if fam = AF_INET then some { t with size := 4, a := sa.addr.take 4 }
    else if fam = AF_INET6 then some { t with size := 16, a := sa.addr.take 16 }
    else none
  else none

/-- The loop `while (ifa)` of `lo_inaddr_find_iface`: the entry `ifa` points to
when the loop is left (`none` for the null pointer, reached without `break`),
and the binding. `a` is `none` when `ip` is the null pointer. -/
def find_iface_loop (fam : Int) (iface : Option (List Char)) (a : Option (List Nat))
    (t : InAddr) : List IfAddrs → Option IfAddrs × InAddr
  | [] => (none, t)
  | ifa :: next =>
      match ifa.ifa_addr with
      | none => find_iface_loop fam iface a t next
      | some sa =>
          match a.bind fun bytes => find_iface_by_ip fam bytes sa t with
          | some t1 => (some ifa, t1)
          | none =>
              match iface.bind fun name => find_iface_by_name fam name ifa sa t with
              | some t1 => (some ifa, t1)
              | none => find_iface_loop fam iface a t next

/-- Embeds `lo_inaddr_find_iface`, built with `ENABLE_IPV6`: the return value,
the binding afterwards, and the calls made. `iface` and `ip` are `none` for the
null pointer. The address bytes of the binding are its first `size` bytes. -/
def lo_inaddr_find_iface (os : Os) (t : InAddr) (fam : Int)
    (iface ip : Option (List Char)) : Int × InAddr × List OsCall :=
  let rc : Int := match ip with
    | some s => (os.inet_pton fam s).1
    | none => 1
  let a : Option (List Nat) := ip.map fun s => (os.inet_pton fam s).2
  let c1 : List OsCall := match ip with
    | some s => [OsCall.inet_pton fam s]
    | none => []
  if rc ≠ 1 then (if rc < 0 then 3 else 4, t, c1)
  else
    match os.getifaddrs with
    | none => (5, t, c1 ++ [OsCall.getifaddrs])
    | some ifa_list =>
        match find_iface_loop fam iface a t ifa_list with
        | (some ifa, t1) =>
            (0, { t1 with iface := strdup (.str ifa.ifa_name) },
              c1 ++ [OsCall.getifaddrs, OsCall.freeifaddrs])
        | (none, t1) => (1, t1, c1 ++ [OsCall.getifaddrs, OsCall.freeifaddrs])

/-- Embeds `lo_address_set_iface`: the return value, the descriptor afterwards,
and the calls made. -/
def lo_address_set_iface (os : Os) (t : Address) (iface ip : Option (List Char)) :
    Int × Address × List OsCall :=
  let r : Int × Address × List OsCall :=
    if t.aiFirst.isNone then lo_address_resolve os t else (0, t, [])
  match r.2.1.aiFirst with
  | none => (2, r.2.1, r.2.2)
  | some first =>
      let f := lo_inaddr_find_iface os r.2.1.addr first.ai_family iface ip
      (f.1, { r.2.1 with addr := f.2.1 }, r.2.2 ++ f.2.2)

/-- Embeds `lo_address_get_iface`. The argument is `none` for the null
pointer. -/
def lo_address_get_iface (t : Option Address) : CStr :=
  match t with
  | some t => t.addr.iface
  | none => .null

/-! ## `inet_pton` -/

/-- The text form of an IPv4 address, read as `inet_pton` does for `AF_INET`:
four decimal numbers up to 255 without leading zeros, separated by dots.
`done` holds the finished numbers, `cur` the one being read, `saw` whether it
has a digit. -/
def inet_pton4 (done : List Nat) (cur : Nat) (saw : Bool) : List Char → Option (List Nat)
  | [] => if saw ∧ done.length = 3 then some (done ++ [cur]) else none
  | ch :: src =>
      if ch.isDigit then
        if saw ∧ cur = 0 then none
        else if cur * 10 + (ch.toNat - '0'.toNat) > 255 then none
        else if ¬ saw ∧ done.length + 1 > 4 then none
        else inet_pton4 done (cur * 10 + (ch.toNat - '0'.toNat)) true src
      else if ch = '.' ∧ saw then
        if done.length + 1 = 4 then none
        else inet_pton4 (done ++ [cur]) 0 false src
      else none

/-- The value of a hexadecimal digit. -/
def hexDigitValue (ch : Char) : Option Nat :=
  if ch.isDigit then some (ch.toNat - '0'.toNat)
  else if 'a' ≤ ch ∧ ch ≤ 'f' then some (ch.toNat - 'a'.toNat + 10)
  else if 'A' ≤ ch ∧ ch ≤ 'F' then some (ch.toNat - 'A'.toNat + 10)
  else none

/-- The end of `inet_pton` for `AF_INET6`: `bytes` are the bytes written,
`colonp` the number of bytes written before the `::`, if there was one. -/
def inet_pton6_finish (bytes : List Nat) (colonp : Option Nat) : Option (List Nat) :=
  match colonp with
  | some k =>
      if bytes.length ≥ 16 then none
      else some (bytes.take k ++ List.replicate (16 - bytes.length) 0 ++ bytes.drop k)
  | none => if bytes.length = 16 then some bytes else none

/-- The loop of `inet_pton` for `AF_INET6` over the text after a leading `::`
has been checked: groups of up to four hexadecimal digits separated by `:`, at
most one `::`, and possibly a dotted IPv4 address as the last four bytes.
`curtok` is the text from the start of the current group. -/
def inet_pton6_loop (bytes : List Nat) (colonp : Option Nat) (val seen : Nat)
    (curtok : List Char) : List Char → Option (List Nat)
  | [] =>
      if seen > 0 then
        if bytes.length + 2 > 16 then none
        else inet_pton6_finish (bytes ++ [val / 256 % 256, val % 256]) colonp
      else inet_pton6_finish bytes colonp
  | ch :: src =>
      match hexDigitValue ch with
      | some digit =>
          if seen = 4 then none
          else inet_pton6_loop bytes colonp (val * 16 + digit) (seen + 1) curtok src
      | none =>
          if ch = ':' then
            if seen = 0 then
              if colonp.isSome then none
              else inet_pton6_loop bytes (some bytes.length) val seen src src
            else if src = [] then none
            else if bytes.length + 2 > 16 then none
            else inet_pton6_loop (bytes ++ [val / 256 % 256, val % 256]) colonp 0 0 src src
          else if ch = '.' ∧ bytes.length + 4 ≤ 16 then
            match inet_pton4 [] 0 false curtok with
            | some four => inet_pton6_finish (bytes ++ four) colonp
            | none => none
          else none

/-- The text form of an IPv6 address, read as `inet_pton` does for `AF_INET6`. -/
def inet_pton6 (src : List Char) : Option (List Nat) :=
  match src with
  | [] => none
  | ':' :: ':' :: rest => inet_pton6_loop [] none 0 0 (':' :: rest) (':' :: rest)
  | ':' :: _ => none
  | _ => inet_pton6_loop [] none 0 0 src src

/-- The function `inet_pton` of `<arpa/inet.h>`: 1 and the address bytes for a
valid text form of the family, 0 for a text that is not one, -1 for a family
that is neither `AF_INET` nor `AF_INET6`. -/
def inet_pton (af : Int) (src : List Char) : Int × List Nat :=
  if af = AF_INET then
    match inet_pton4 [] 0 false src with
    | some bytes => (1, bytes)
    | none => (0, [])
  else if af = AF_INET6 then
    match inet_pton6 src with
    | some bytes => (1, bytes)
    | none => (0, [])
  else (-1, [])

/-! ## Vocabulary of the statements -/

/-- Whether a decimal digit stands right after the first `:` of a host. -/
def digitAfterFirstColon (host : List Char) : Bool :=
  match host.dropWhile (fun c => c != ':') with
  | _ :: y :: _ => y.isDigit
  | _ => false

/-- The number of address bytes of a family: `sizeof(struct in_addr)` for
`AF_INET`, `sizeof(struct in6_addr)` otherwise. -/
def addrLen (fam : Int) : Nat :=
  if fam = AF_INET then 4 else 16

/-- The address bytes of an interface; none for an entry without address. -/
def IfAddrs.bytes (i : IfAddrs) : List Nat :=
  match i.ifa_addr with
  | some sa => sa.addr
  | none => []

/-- The selection rule in words: the entry has an address, and either a source
IP is given, the family of the entry is `fam` and its address bytes are those
of the parsed literal `lit`, or an interface name is given, the family of the
entry is `fam` and its name is that name. -/
def ifaceSatisfies (fam : Int) (iface : Option (List Char)) (lit : Option (List Nat))
    (i : IfAddrs) : Bool :=
  match i.ifa_addr with
  | none => false
  | some sa =>
      (match lit with
        | some bytes =>
            decide (sa.sa_family = fam ∧ sa.addr.take (addrLen fam) = bytes.take (addrLen fam))
        | none => false)
      || (match iface with
        | some name => decide (sa.sa_family = fam ∧ i.ifa_name = name)
        | none => false)

/-- The scan patterns of `lo_url_get_protocol`, `lo_url_get_hostname`,
`lo_url_get_port` and `lo_url_get_path`. -/
def scanPatterns : List String :=
  ["osc://%s", "osc.%[^:/[]",
   "osc://%[^[:/]", "osc.%*[^:/]://[%[^]/]]", "osc.%*[^:/]://%[^[:/]",
   "osc://%*[^:]:%[0-9]", "osc.%*[^:]://%*[^:]:%[0-9]", "osc://[%*[^]]]:%[0-9]",
   "osc.%*[^:]://[%*[^]]]:%[0-9]",
   "osc://%*[^:]:%*[0-9]%s", "osc.%*[^:]://%*[^:]:%*[0-9]%s", "osc.unix://%*[^/]%s",
   "osc.%*[^:]://%s"]

/-- An operating system for the examples: the loopback interface `lo` with
`127.0.0.1` and `::1`, the interface `eth0` with `10.0.0.5`, and a resolver that
knows `localhost` only and answers with the given address. -/
def exampleOs (answer : List Nat) : Os :=
  { getaddrinfo := fun node _ _ socktype =>
      if node = .str "localhost".toList then (0, [⟨AF_INET, socktype, answer⟩]) else (-2, [])
    gai_strerror := fun _ => "Name or service not known".toList
    strerror := fun _ => .str "Success".toList
    inet_pton := inet_pton
    getifaddrs := some
      [⟨"lo".toList, some ⟨AF_INET, [127, 0, 0, 1]⟩⟩,
       ⟨"lo".toList, some ⟨AF_INET6, [0, 0, 0, 0, 0, 0, 0, 0, 0, 0, 0, 0, 0, 0, 0, 1]⟩⟩,
       ⟨"eth0".toList, none⟩,
       ⟨"eth0".toList, some ⟨AF_INET, [10, 0, 0, 5]⟩⟩] }

/-- A fresh binding, as `calloc` leaves it. -/
def emptyInAddr : InAddr := { a := [], size := 0, iface := .null }

/-! ## Lemmas on the `sscanf` interpreter -/

theorem range_single (a c : Char) : (decide (a ≤ c) && decide (c ≤ a)) = decide (c = a) := by
  by_cases h : c = a
  · subst h; simp
  · have hne : ¬ (a ≤ c ∧ c ≤ a) := fun ⟨h1, h2⟩ => h (le_antisymm h2 h1)
    rw [← Bool.decide_and]
    simp only [h, hne, decide_False]

theorem scan_lit_same (c : Char) (ds : List Directive) (rest : List Char)
    (acc : List (List Char)) : scan (.lit c :: ds) (c :: rest) acc = scan ds rest acc := by
  simp [scan]

theorem scan_lit_other (c x : Char) (ds : List Directive) (rest : List Char)
    (acc : List (List Char)) (h : x ≠ c) :
    scan (.lit c :: ds) (x :: rest) acc = matchingFailure acc := by
  simp [scan, h]

theorem scan_set_stop (sup neg : Bool) (rs : List (Char × Char)) (ds : List Directive)
    (x : Char) (rest : List Char) (acc : List (List Char)) (hx : inScanset neg rs x = false) :
    scan (.set sup neg rs :: ds) (x :: rest) acc = matchingFailure acc := by
  simp [scan, hx]

theorem scan_set_run (sup neg : Bool) (rs : List (Char × Char)) (ds : List Directive)
    (tok : List Char) (x : Char) (rest : List Char) (acc : List (List Char))
    (htok : tok ≠ []) (hin : ∀ c ∈ tok, inScanset neg rs c = true)
    (hx : inScanset neg rs x = false) :
    scan (.set sup neg rs :: ds) (tok ++ x :: rest) acc
      = scan ds (x :: rest) (if sup then acc else acc ++ [tok]) := by
  cases tok with
  | nil => exact absurd rfl htok
  | cons t ts =>
      have ht : inScanset neg rs t = true := hin t (by simp)
      have hts : ∀ c ∈ ts, inScanset neg rs c = true := fun c hc => hin c (by simp [hc])
      simp [scan, ht, List.takeWhile_append_of_pos hts, List.dropWhile_append_of_pos hts, hx]

theorem scan_str_all (sup : Bool) (ds : List Directive) (tok : List Char)
    (acc : List (List Char)) (htok : tok ≠ []) (hns : ∀ c ∈ tok, isspace c = false) :
    scan (.str sup :: ds) tok acc = scan ds [] (if sup then acc else acc ++ [tok]) := by
  cases tok with
  | nil => exact absurd rfl htok
  | cons t ts =>
      have ht : isspace t = false := hns t (by simp)
      have hts : ∀ c ∈ ts, isspace c = false := fun c hc => hns c (by simp [hc])
      have h1 : List.takeWhile (fun c => !isspace c) ts = ts := by
        rw [List.takeWhile_eq_self_iff]; intro c hc; simp [hts c hc]
      have h2 : List.dropWhile (fun c => !isspace c) ts = [] := by
        rw [List.dropWhile_eq_nil_iff]; intro c hc; simp [hts c hc]
      simp [scan, ht, h1, h2]

/-- Members of the scanset `[^[:/]`. -/
theorem inSet_hostStop (c : Char) :
    inScanset true [('[', '['), (':', ':'), ('/', '/')] c = true ↔ c ≠ '[' ∧ c ≠ ':' ∧ c ≠ '/' := by
  simp [inScanset, range_single]

/-- Members of the scanset `[^:/]`. -/
theorem inSet_schemeStop (c : Char) :
    inScanset true [(':', ':'), ('/', '/')] c = true ↔ c ≠ ':' ∧ c ≠ '/' := by
  simp [inScanset, range_single]

/-- Members of the scanset `[^:]`. -/
theorem inSet_colonStop (c : Char) :
    inScanset true [(':', ':')] c = true ↔ c ≠ ':' := by
  simp [inScanset, range_single]

/-- Members of the scanset `[^]/]`. -/
theorem inSet_bracketSlashStop (c : Char) :
    inScanset true [(']', ']'), ('/', '/')] c = true ↔ c ≠ ']' ∧ c ≠ '/' := by
  simp [inScanset, range_single]

/-- Members of the scanset `[^]]`. -/
theorem inSet_bracketStop (c : Char) :
    inScanset true [(']', ']')] c = true ↔ c ≠ ']' := by
  simp [inScanset, range_single]

/-- Members of the scanset `[^/]`. -/
theorem inSet_slashStop (c : Char) :
    inScanset true [('/', '/')] c = true ↔ c ≠ '/' := by
  simp [inScanset, range_single]

/-- Members of the scanset `[0-9]`. -/
theorem inSet_digits (c : Char) :
    inScanset false [('0', '0'), ('0', '9'), ('9', '9')] c = c.isDigit := by
  have h1 : c.isDigit = true ↔ ('0' ≤ c ∧ c ≤ '9') := by
    simp only [Char.isDigit, Bool.and_eq_true, decide_eq_true_eq]
    exact Iff.rfl
  have h2 : (c = '0' ∨ ('0' ≤ c ∧ c ≤ '9') ∨ c = '9') ↔ ('0' ≤ c ∧ c ≤ '9') := by
    constructor
    · rintro (h | h | h)
      · subst h; decide
      · exact h
      · subst h; decide
    · intro h; exact Or.inr (Or.inl h)
  rw [Bool.eq_iff_iff, h1, ← h2]
  simp [inScanset, range_single]

/-! ## The formats of `address.c`, read into directives -/

theorem sscanf_protoBare (url : List Char) :
    sscanf url "osc://%s" = scan
      [.lit 'o', .lit 's', .lit 'c', .lit ':', .lit '/', .lit '/', .str false]
      url [] := rfl

theorem sscanf_protoDotted (url : List Char) :
    sscanf url "osc.%[^:/[]" = scan
      [.lit 'o', .lit 's', .lit 'c', .lit '.', .set false true [(':', ':'), ('/', '/'), ('[', '[')]]
      url [] := rfl

theorem sscanf_hostBare (url : List Char) :
    sscanf url "osc://%[^[:/]" = scan
      [.lit 'o', .lit 's', .lit 'c', .lit ':', .lit '/', .lit '/', .set false true [('[', '['), (':', ':'), ('/', '/')]]
      url [] := rfl

theorem sscanf_hostDottedBracket (url : List Char) :
    sscanf url "osc.%*[^:/]://[%[^]/]]" = scan
      [.lit 'o', .lit 's', .lit 'c', .lit '.', .set true true [(':', ':'), ('/', '/')], .lit ':', .lit '/', .lit '/', .lit '[', .set false true [(']', ']'), ('/', '/')], .lit ']']
      url [] := rfl

theorem sscanf_hostDotted (url : List Char) :
    sscanf url "osc.%*[^:/]://%[^[:/]" = scan
      [.lit 'o', .lit 's', .lit 'c', .lit '.', .set true true [(':', ':'), ('/', '/')], .lit ':', .lit '/', .lit '/', .set false true [('[', '['), (':', ':'), ('/', '/')]]
      url [] := rfl

theorem sscanf_portBare (url : List Char) :
    sscanf url "osc://%*[^:]:%[0-9]" = scan
      [.lit 'o', .lit 's', .lit 'c', .lit ':', .lit '/', .lit '/', .set true true [(':', ':')], .lit ':', .set false false [('0', '0'), ('0', '9'), ('9', '9')]]
      url [] := rfl

theorem sscanf_portDotted (url : List Char) :
    sscanf url "osc.%*[^:]://%*[^:]:%[0-9]" = scan
      [.lit 'o', .lit 's', .lit 'c', .lit '.', .set true true [(':', ':')], .lit ':', .lit '/', .lit '/', .set true true [(':', ':')], .lit ':', .set false false [('0', '0'), ('0', '9'), ('9', '9')]]
      url [] := rfl

theorem sscanf_portBareBracket (url : List Char) :
    sscanf url "osc://[%*[^]]]:%[0-9]" = scan
      [.lit 'o', .lit 's', .lit 'c', .lit ':', .lit '/', .lit '/', .lit '[', .set true true [(']', ']')], .lit ']', .lit ':', .set false false [('0', '0'), ('0', '9'), ('9', '9')]]
      url [] := rfl

theorem sscanf_portDottedBracket (url : List Char) :
    sscanf url "osc.%*[^:]://[%*[^]]]:%[0-9]" = scan
      [.lit 'o', .lit 's', .lit 'c', .lit '.', .set true true [(':', ':')], .lit ':', .lit '/', .lit '/', .lit '[', .set true true [(']', ']')], .lit ']', .lit ':', .set false false [('0', '0'), ('0', '9'), ('9', '9')]]
      url [] := rfl

theorem sscanf_pathBare (url : List Char) :
    sscanf url "osc://%*[^:]:%*[0-9]%s" = scan
      [.lit 'o', .lit 's', .lit 'c', .lit ':', .lit '/', .lit '/', .set true true [(':', ':')], .lit ':', .set true false [('0', '0'), ('0', '9'), ('9', '9')], .str false]
      url [] := rfl

theorem sscanf_pathDotted (url : List Char) :
    sscanf url "osc.%*[^:]://%*[^:]:%*[0-9]%s" = scan
      [.lit 'o', .lit 's', .lit 'c', .lit '.', .set true true [(':', ':')], .lit ':', .lit '/', .lit '/', .set true true [(':', ':')], .lit ':', .set true false [('0', '0'), ('0', '9'), ('9', '9')], .str false]
      url [] := rfl

theorem sscanf_pathUnix (url : List Char) :
    sscanf url "osc.unix://%*[^/]%s" = scan
      [.lit 'o', .lit 's', .lit 'c', .lit '.', .lit 'u', .lit 'n', .lit 'i', .lit 'x', .lit ':', .lit '/', .lit '/', .set true true [('/', '/')], .str false]
      url [] := rfl

theorem sscanf_pathAny (url : List Char) :
    sscanf url "osc.%*[^:]://%s" = scan
      [.lit 'o', .lit 's', .lit 'c', .lit '.', .set true true [(':', ':')], .lit ':', .lit '/', .lit '/', .str false]
      url [] := rfl

/-! ## The extractors on well-shaped URLs -/

theorem scan_done (inp : List Char) (acc : List (List Char)) :
    scan [] inp acc = ⟨acc.length, acc⟩ := by
  simp [scan]

/-- Host extraction from `osc://HOST` followed by a character that ends the host. -/
theorem hostname_bare (h : List Char) (x : Char) (rest : List Char)
    (hh : h ≠ []) (hplain : ∀ c ∈ h, c ≠ '[' ∧ c ≠ ':' ∧ c ≠ '/')
    (hx : x = '[' ∨ x = ':' ∨ x = '/') :
    lo_url_get_hostname ('o' :: 's' :: 'c' :: ':' :: '/' :: '/' :: (h ++ x :: rest)) = .str h := by
  have hin : ∀ c ∈ h, inScanset true [('[', '['), (':', ':'), ('/', '/')] c = true :=
    fun c hc => (inSet_hostStop c).2 (hplain c hc)
  have hxs : inScanset true [('[', '['), (':', ':'), ('/', '/')] x = false := by
    rcases hx with rfl | rfl | rfl <;> decide
  have e1 : sscanf ('o' :: 's' :: 'c' :: ':' :: '/' :: '/' :: (h ++ x :: rest)) "osc://%[^[:/]"
      = ⟨1, [h]⟩ := by
    simp only [sscanf_hostBare, scan_lit_same, scan_set_run _ _ _ _ h x rest _ hh hin hxs,
      scan_done]
    simp
  simp [lo_url_get_hostname, e1, store]

/-- Host extraction from `osc.TOKEN://HOST` followed by a character that ends the host. -/
theorem hostname_dotted (T h : List Char) (x : Char) (rest : List Char)
    (hT : T ≠ []) (hTs : ∀ c ∈ T, c ≠ ':' ∧ c ≠ '/')
    (hh : h ≠ []) (hplain : ∀ c ∈ h, c ≠ '[' ∧ c ≠ ':' ∧ c ≠ '/')
    (hx : x = '[' ∨ x = ':' ∨ x = '/') :
    lo_url_get_hostname
      ('o' :: 's' :: 'c' :: '.' :: (T ++ ':' :: '/' :: '/' :: (h ++ x :: rest))) = .str h := by
  have hTin : ∀ c ∈ T, inScanset true [(':', ':'), ('/', '/')] c = true :=
    fun c hc => (inSet_schemeStop c).2 (hTs c hc)
  have hin : ∀ c ∈ h, inScanset true [('[', '['), (':', ':'), ('/', '/')] c = true :=
    fun c hc => (inSet_hostStop c).2 (hplain c hc)
  have hxs : inScanset true [('[', '['), (':', ':'), ('/', '/')] x = false := by
    rcases hx with rfl | rfl | rfl <;> decide
  have e1 : sscanf ('o' :: 's' :: 'c' :: '.' :: (T ++ ':' :: '/' :: '/' :: (h ++ x :: rest)))
      "osc://%[^[:/]" = ⟨0, []⟩ := by
    simp only [sscanf_hostBare, scan_lit_same,
      scan_lit_other ':' '.' _ _ _ (by decide)]
    rfl
  have e2 : sscanf ('o' :: 's' :: 'c' :: '.' :: (T ++ ':' :: '/' :: '/' :: (h ++ x :: rest)))
      "osc.%*[^:/]://[%[^]/]]" = ⟨0, []⟩ := by
    cases h with
    | nil => exact absurd rfl hh
    | cons t ts =>
        have ht : t ≠ '[' := (hplain t (by simp)).1
        simp only [sscanf_hostDottedBracket, scan_lit_same,
          scan_set_run _ _ _ _ T ':' _ _ hT hTin (by decide), List.cons_append,
          scan_lit_other '[' t _ _ _ ht]
        rfl
  have e3 : sscanf ('o' :: 's' :: 'c' :: '.' :: (T ++ ':' :: '/' :: '/' :: (h ++ x :: rest)))
      "osc.%*[^:/]://%[^[:/]" = ⟨1, [h]⟩ := by
    simp only [sscanf_hostDotted, scan_lit_same,
      scan_set_run _ _ _ _ T ':' _ _ hT hTin (by decide),
      scan_set_run _ _ _ _ h x rest _ hh hin hxs, scan_done]
    simp
  simp [lo_url_get_hostname, e1, e2, e3, store]

/-- Host extraction from `osc.TOKEN://[LITERAL]`: the brackets are stripped. -/
theorem hostname_dotted_bracket (T L rest : List Char)
    (hT : T ≠ []) (hTs : ∀ c ∈ T, c ≠ ':' ∧ c ≠ '/')
    (hL : L ≠ []) (hLs : ∀ c ∈ L, c ≠ ']' ∧ c ≠ '/') :
    lo_url_get_hostname
      ('o' :: 's' :: 'c' :: '.' :: (T ++ ':' :: '/' :: '/' :: '[' :: (L ++ ']' :: rest)))
      = .str L := by
  have hTin : ∀ c ∈ T, inScanset true [(':', ':'), ('/', '/')] c = true :=
    fun c hc => (inSet_schemeStop c).2 (hTs c hc)
  have hin : ∀ c ∈ L, inScanset true [(']', ']'), ('/', '/')] c = true :=
    fun c hc => (inSet_bracketSlashStop c).2 (hLs c hc)
  have e1 : sscanf
      ('o' :: 's' :: 'c' :: '.' :: (T ++ ':' :: '/' :: '/' :: '[' :: (L ++ ']' :: rest)))
      "osc://%[^[:/]" = ⟨0, []⟩ := by
    simp only [sscanf_hostBare, scan_lit_same,
      scan_lit_other ':' '.' _ _ _ (by decide)]
    rfl
  have e2 : sscanf
      ('o' :: 's' :: 'c' :: '.' :: (T ++ ':' :: '/' :: '/' :: '[' :: (L ++ ']' :: rest)))
      "osc.%*[^:/]://[%[^]/]]" = ⟨1, [L]⟩ := by
    simp only [sscanf_hostDottedBracket, scan_lit_same,
      scan_set_run _ _ _ _ T ':' _ _ hT hTin (by decide),
      scan_set_run _ _ _ _ L ']' rest _ hL hin (by decide), scan_done]
    simp
  simp [lo_url_get_hostname, e1, e2, store]

/-- Port extraction from `osc://HOST:PORT`. -/
theorem port_bare (h p : List Char) (x : Char) (rest : List Char)
    (hh : h ≠ []) (hhs : ∀ c ∈ h, c ≠ ':')
    (hp : p ≠ []) (hps : ∀ c ∈ p, c.isDigit = true) (hx : x.isDigit = false) :
    lo_url_get_port ('o' :: 's' :: 'c' :: ':' :: '/' :: '/' :: (h ++ ':' :: (p ++ x :: rest)))
      = .str p := by
  have hin : ∀ c ∈ h, inScanset true [(':', ':')] c = true :=
    fun c hc => (inSet_colonStop c).2 (hhs c hc)
  have hpin : ∀ c ∈ p, inScanset false [('0', '0'), ('0', '9'), ('9', '9')] c = true :=
    fun c hc => by rw [inSet_digits]; exact hps c hc
  have hxs : inScanset false [('0', '0'), ('0', '9'), ('9', '9')] x = false := by
    rw [inSet_digits]; exact hx
  have e1 : sscanf ('o' :: 's' :: 'c' :: ':' :: '/' :: '/' :: (h ++ ':' :: (p ++ x :: rest)))
      "osc://%*[^:]:%[0-9]" = ⟨1, [p]⟩ := by
    simp only [sscanf_portBare, scan_lit_same,
      scan_set_run _ _ _ _ h ':' _ _ hh hin (by decide),
      scan_set_run _ _ _ _ p x rest _ hp hpin hxs, scan_done]
    simp
  simp [lo_url_get_port, e1, store]

/-- Port extraction from `osc.TOKEN://HOST:PORT`. -/
theorem port_dotted (T h p : List Char) (x : Char) (rest : List Char)
    (hT : T ≠ []) (hTs : ∀ c ∈ T, c ≠ ':')
    (hh : h ≠ []) (hhs : ∀ c ∈ h, c ≠ ':')
    (hp : p ≠ []) (hps : ∀ c ∈ p, c.isDigit = true) (hx : x.isDigit = false) :
    lo_url_get_port
      ('o' :: 's' :: 'c' :: '.' :: (T ++ ':' :: '/' :: '/' :: (h ++ ':' :: (p ++ x :: rest))))
      = .str p := by
  have hTin : ∀ c ∈ T, inScanset true [(':', ':')] c = true :=
    fun c hc => (inSet_colonStop c).2 (hTs c hc)
  have hin : ∀ c ∈ h, inScanset true [(':', ':')] c = true :=
    fun c hc => (inSet_colonStop c).2 (hhs c hc)
  have hpin : ∀ c ∈ p, inScanset false [('0', '0'), ('0', '9'), ('9', '9')] c = true :=
    fun c hc => by rw [inSet_digits]; exact hps c hc
  have hxs : inScanset false [('0', '0'), ('0', '9'), ('9', '9')] x = false := by
    rw [inSet_digits]; exact hx
  have e1 : sscanf
      ('o' :: 's' :: 'c' :: '.' :: (T ++ ':' :: '/' :: '/' :: (h ++ ':' :: (p ++ x :: rest))))
      "osc://%*[^:]:%[0-9]" = ⟨0, []⟩ := by
    simp only [sscanf_portBare, scan_lit_same, scan_lit_other ':' '.' _ _ _ (by decide)]
    rfl
  have e2 : sscanf
      ('o' :: 's' :: 'c' :: '.' :: (T ++ ':' :: '/' :: '/' :: (h ++ ':' :: (p ++ x :: rest))))
      "osc.%*[^:]://%*[^:]:%[0-9]" = ⟨1, [p]⟩ := by
    simp only [sscanf_portDotted, scan_lit_same,
      scan_set_run _ _ _ _ T ':' _ _ hT hTin (by decide),
      scan_set_run _ _ _ _ h ':' _ _ hh hin (by decide),
      scan_set_run _ _ _ _ p x rest _ hp hpin hxs, scan_done]
    simp
  simp [lo_url_get_port, e1, e2, store]

/-- Port extraction from `osc.TOKEN://[A:B]:PORT` where no digit follows the
first colon of the bracketed literal. -/
theorem port_dotted_bracket (T a b p : List Char) (x : Char) (rest : List Char)
    (hT : T ≠ []) (hTs : ∀ c ∈ T, c ≠ ':')
    (has : ∀ c ∈ a, c ≠ ':' ∧ c ≠ ']') (hbs : ∀ c ∈ b, c ≠ ']')
    (hb : ∀ y ∈ b.head?, y.isDigit = false)
    (hp : p ≠ []) (hps : ∀ c ∈ p, c.isDigit = true) (hx : x.isDigit = false) :
    lo_url_get_port
      ('o' :: 's' :: 'c' :: '.' :: (T ++ ':' :: '/' :: '/' :: '[' ::
        (a ++ ':' :: (b ++ ']' :: ':' :: (p ++ x :: rest)))))
      = .str p := by
  have hTin : ∀ c ∈ T, inScanset true [(':', ':')] c = true :=
    fun c hc => (inSet_colonStop c).2 (hTs c hc)
  have hain : ∀ c ∈ '[' :: a, inScanset true [(':', ':')] c = true := by
    intro c hc
    rcases List.mem_cons.1 hc with rfl | hc
    · decide
    · exact (inSet_colonStop c).2 (has c hc).1
  have hLin : ∀ c ∈ a ++ ':' :: b, inScanset true [(']', ']')] c = true := by
    intro c hc
    rw [inSet_bracketStop]
    rcases List.mem_append.1 hc with hc | hc
    · exact (has c hc).2
    · rcases List.mem_cons.1 hc with rfl | hc
      · decide
      · exact hbs c hc
  have hpin : ∀ c ∈ p, inScanset false [('0', '0'), ('0', '9'), ('9', '9')] c = true :=
    fun c hc => by rw [inSet_digits]; exact hps c hc
  have hxs : inScanset false [('0', '0'), ('0', '9'), ('9', '9')] x = false := by
    rw [inSet_digits]; exact hx
  have e1 : sscanf
      ('o' :: 's' :: 'c' :: '.' :: (T ++ ':' :: '/' :: '/' :: '[' ::
        (a ++ ':' :: (b ++ ']' :: ':' :: (p ++ x :: rest)))))
      "osc://%*[^:]:%[0-9]" = ⟨0, []⟩ := by
    simp only [sscanf_portBare, scan_lit_same, scan_lit_other ':' '.' _ _ _ (by decide)]
    rfl
  have e2 : sscanf
      ('o' :: 's' :: 'c' :: '.' :: (T ++ ':' :: '/' :: '/' :: '[' ::
        (a ++ ':' :: (b ++ ']' :: ':' :: (p ++ x :: rest)))))
      "osc.%*[^:]://%*[^:]:%[0-9]" = ⟨0, []⟩ := by
    have hshape : '[' :: (a ++ ':' :: (b ++ ']' :: ':' :: (p ++ x :: rest)))
        = ('[' :: a) ++ ':' :: (b ++ ']' :: ':' :: (p ++ x :: rest)) := by simp
    simp only [sscanf_portDotted, scan_lit_same,
      scan_set_run _ _ _ _ T ':' _ _ hT hTin (by decide)]
    rw [hshape, scan_set_run _ _ _ _ ('[' :: a) ':' _ _ (by simp) hain (by decide),
      scan_lit_same]
    cases b with
    | nil => simp only [List.nil_append]; rw [scan_set_stop _ _ _ _ _ _ _ (by decide)]; rfl
    | cons y ys =>
        have hy : inScanset false [('0', '0'), ('0', '9'), ('9', '9')] y = false := by
          rw [inSet_digits]; exact hb y (by simp)
        simp only [List.cons_append]; rw [scan_set_stop _ _ _ _ _ _ _ hy]; rfl
  have e3 : sscanf
      ('o' :: 's' :: 'c' :: '.' :: (T ++ ':' :: '/' :: '/' :: '[' ::
        (a ++ ':' :: (b ++ ']' :: ':' :: (p ++ x :: rest)))))
      "osc://[%*[^]]]:%[0-9]" = ⟨0, []⟩ := by
    simp only [sscanf_portBareBracket, scan_lit_same, scan_lit_other ':' '.' _ _ _ (by decide)]
    rfl
  have e4 : sscanf
      ('o' :: 's' :: 'c' :: '.' :: (T ++ ':' :: '/' :: '/' :: '[' ::
        (a ++ ':' :: (b ++ ']' :: ':' :: (p ++ x :: rest)))))
      "osc.%*[^:]://[%*[^]]]:%[0-9]" = ⟨1, [p]⟩ := by
    have hshape : a ++ ':' :: (b ++ ']' :: ':' :: (p ++ x :: rest))
        = (a ++ ':' :: b) ++ ']' :: ':' :: (p ++ x :: rest) := by simp
    simp only [sscanf_portDottedBracket, scan_lit_same,
      scan_set_run _ _ _ _ T ':' _ _ hT hTin (by decide)]
    rw [hshape, scan_set_run _ _ _ _ (a ++ ':' :: b) ']' _ _ (by simp) hLin (by decide)]
    simp only [scan_lit_same, scan_set_run _ _ _ _ p x rest _ hp hpin hxs, scan_done]
    simp
  simp [lo_url_get_port, e1, e2, e3, e4, store]

/-- Path extraction from `osc://HOST:PORT` followed by a path. -/
theorem path_bare (h d q : List Char)
    (hh : h ≠ []) (hhs : ∀ c ∈ h, c ≠ ':')
    (hd : d ≠ []) (hds : ∀ c ∈ d, c.isDigit = true)
    (hq : ∀ c ∈ q, isspace c = false) :
    lo_url_get_path ('o' :: 's' :: 'c' :: ':' :: '/' :: '/' :: (h ++ ':' :: (d ++ '/' :: q)))
      = .str ('/' :: q) := by
  have hin : ∀ c ∈ h, inScanset true [(':', ':')] c = true :=
    fun c hc => (inSet_colonStop c).2 (hhs c hc)
  have hdin : ∀ c ∈ d, inScanset false [('0', '0'), ('0', '9'), ('9', '9')] c = true :=
    fun c hc => by rw [inSet_digits]; exact hds c hc
  have hpath : ∀ c ∈ '/' :: q, isspace c = false := by
    intro c hc
    rcases List.mem_cons.1 hc with rfl | hc
    · decide
    · exact hq c hc
  have e1 : sscanf ('o' :: 's' :: 'c' :: ':' :: '/' :: '/' :: (h ++ ':' :: (d ++ '/' :: q)))
      "osc://%*[^:]:%*[0-9]%s" = ⟨1, ['/' :: q]⟩ := by
    simp only [sscanf_pathBare, scan_lit_same,
      scan_set_run _ _ _ _ h ':' _ _ hh hin (by decide),
      scan_set_run _ _ _ _ d '/' q _ hd hdin (by decide),
      scan_str_all _ _ ('/' :: q) _ (by simp) hpath, scan_done]
    simp
  simp [lo_url_get_path, e1, store]

/-- Path extraction from `osc.TOKEN://HOST:PORT` followed by a path. -/
theorem path_dotted (T h d q : List Char)
    (hT : T ≠ []) (hTs : ∀ c ∈ T, c ≠ ':')
    (hh : h ≠ []) (hhs : ∀ c ∈ h, c ≠ ':')
    (hd : d ≠ []) (hds : ∀ c ∈ d, c.isDigit = true)
    (hq : ∀ c ∈ q, isspace c = false) :
    lo_url_get_path
      ('o' :: 's' :: 'c' :: '.' :: (T ++ ':' :: '/' :: '/' :: (h ++ ':' :: (d ++ '/' :: q))))
      = .str ('/' :: q) := by
  have hTin : ∀ c ∈ T, inScanset true [(':', ':')] c = true :=
    fun c hc => (inSet_colonStop c).2 (hTs c hc)
  have hin : ∀ c ∈ h, inScanset true [(':', ':')] c = true :=
    fun c hc => (inSet_colonStop c).2 (hhs c hc)
  have hdin : ∀ c ∈ d, inScanset false [('0', '0'), ('0', '9'), ('9', '9')] c = true :=
    fun c hc => by rw [inSet_digits]; exact hds c hc
  have hpath : ∀ c ∈ '/' :: q, isspace c = false := by
    intro c hc
    rcases List.mem_cons.1 hc with rfl | hc
    · decide
    · exact hq c hc
  have e1 : sscanf
      ('o' :: 's' :: 'c' :: '.' :: (T ++ ':' :: '/' :: '/' :: (h ++ ':' :: (d ++ '/' :: q))))
      "osc://%*[^:]:%*[0-9]%s" = ⟨0, []⟩ := by
    simp only [sscanf_pathBare, scan_lit_same, scan_lit_other ':' '.' _ _ _ (by decide)]
    rfl
  have e2 : sscanf
      ('o' :: 's' :: 'c' :: '.' :: (T ++ ':' :: '/' :: '/' :: (h ++ ':' :: (d ++ '/' :: q))))
      "osc.%*[^:]://%*[^:]:%*[0-9]%s" = ⟨1, ['/' :: q]⟩ := by
    simp only [sscanf_pathDotted, scan_lit_same,
      scan_set_run _ _ _ _ T ':' _ _ hT hTin (by decide),
      scan_set_run _ _ _ _ h ':' _ _ hh hin (by decide),
      scan_set_run _ _ _ _ d '/' q _ hd hdin (by decide),
      scan_str_all _ _ ('/' :: q) _ (by simp) hpath, scan_done]
    simp
  simp [lo_url_get_path, e1, e2, store]

/-! ## Rendering -/

/-- The URL `lo_address_get_url` renders for a descriptor whose host and port
are strings and whose protocol has a name. -/
theorem get_url_eq (a : Address) (name host port : List Char)
    (hn : get_protocol_name a.protocol = .str name)
    (hh : a.host = .str host) (hp : a.port = .str port) :
    lo_address_get_url a = some ('o' :: 's' :: 'c' :: '.' :: (name ++ ':' :: '/' :: '/' ::
      ((if ':' ∈ host then '[' :: (host ++ [']']) else host) ++ ':' :: (port ++ ['/'])))) := by
  unfold lo_address_get_url
  rw [hh]
  simp only [hn, hh, hp]
  by_cases hq : ':' ∈ host
  · simp [hq, printfOut]
    split <;> omega
  · simp [hq, printfOut]
    split <;> omega

theorem split_first_colon (h : List Char) (hc : ':' ∈ h) :
    ∃ a b, h = a ++ ':' :: b ∧ (∀ c ∈ a, c ≠ ':')
      ∧ h.dropWhile (fun c => c != ':') = ':' :: b := by
  induction h with
  | nil => simp at hc
  | cons x xs ih =>
      by_cases hx : x = ':'
      · subst hx
        exact ⟨[], xs, by simp, by simp, by simp⟩
      · have hc2 : ':' ∈ xs := by
          rcases List.mem_cons.1 hc with h1 | h1
          · exact absurd h1.symm hx
          · exact h1
        obtain ⟨a, b, e, ha, hd⟩ := ih hc2
        refine ⟨x :: a, b, by simp [e], ?_, ?_⟩
        · intro c hcm
          rcases List.mem_cons.1 hcm with rfl | h1
          · exact hx
          · exact ha c h1
        · simp [List.dropWhile_cons, hx, hd]

theorem new_from_url_inet (url : List Char) (P : Int) (w : List Diag) (hne : url ≠ [])
    (hid : lo_url_get_protocol_id (some url) = (P, w)) (hP : P = LO_UDP ∨ P = LO_TCP) :
    lo_address_new_from_url (some url)
      = (lo_address_new_with_proto P (lo_url_get_hostname url) (lo_url_get_port url), w) := by
  cases url with
  | nil => exact absurd rfl hne
  | cons x xs => simp [lo_address_new_from_url, hid, hP]

/-- Rendering a UDP or TCP descriptor, parsing the URL and rendering again. -/
theorem reparse_inet (P : Int) (name h p : List Char)
    (hPn : (P = LO_UDP ∧ name = "udp".toList) ∨ (P = LO_TCP ∧ name = "tcp".toList))
    (hh : h ≠ []) (hp : p ≠ []) (hdig : ∀ c ∈ p, c.isDigit = true)
    (hshape : (∀ c ∈ h, c ≠ '[' ∧ c ≠ ':' ∧ c ≠ '/')
      ∨ (':' ∈ h ∧ (∀ c ∈ h, c ≠ ']' ∧ c ≠ '/') ∧ digitAfterFirstColon h = false)) :
    (lo_address_new_from_url (some ('o' :: 's' :: 'c' :: '.' :: (name ++ ':' :: '/' :: '/' ::
      ((if ':' ∈ h then '[' :: (h ++ [']']) else h) ++ ':' :: (p ++ ['/'])))))).1
      = lo_address_new_with_proto P (.str h) (.str p) := by
  have hT : name ≠ [] ∧ (∀ c ∈ name, c ≠ ':' ∧ c ≠ '/') := by
    rcases hPn with ⟨_, rfl⟩ | ⟨_, rfl⟩ <;> exact ⟨by simp, by decide⟩
  have hTc : ∀ c ∈ name, c ≠ ':' := fun c hc => (hT.2 c hc).1
  have hP : P = LO_UDP ∨ P = LO_TCP := by
    rcases hPn with ⟨h1, _⟩ | ⟨h1, _⟩
    · exact Or.inl h1
    · exact Or.inr h1
  have hid : ∀ X : List Char,
      lo_url_get_protocol_id (some ('o' :: 's' :: 'c' :: '.' :: (name ++ ':' :: X))) = (P, []) := by
    intro X
    rcases hPn with ⟨rfl, rfl⟩ | ⟨rfl, rfl⟩ <;> simp [lo_url_get_protocol_id]
  rw [new_from_url_inet _ P [] (by simp) (hid _) hP]
  rcases hshape with hplain | ⟨hc, hbr, hdg⟩
  · have hnc : ':' ∉ h := fun hc => (hplain ':' hc).2.1 rfl
    simp only [hnc, if_false]
    rw [hostname_dotted name h ':' (p ++ ['/']) hT.1 hT.2 hh hplain (Or.inr (Or.inl rfl)),
      port_dotted name h p '/' [] hT.1 hTc hh (fun c hc => (hplain c hc).2.1) hp hdig
        (by decide)]
  · obtain ⟨a, b, e, ha, hd⟩ := split_first_colon h hc
    have hb : ∀ y ∈ b.head?, y.isDigit = false := by
      intro y hy
      cases b with
      | nil => simp at hy
      | cons z zs =>
          simp at hy
          subst hy
          simpa [digitAfterFirstColon, hd] using hdg
    have has : ∀ c ∈ a, c ≠ ':' ∧ c ≠ ']' :=
      fun c hcm => ⟨ha c hcm, (hbr c (by rw [e]; simp [hcm])).1⟩
    have hbs : ∀ c ∈ b, c ≠ ']' := fun c hcm => (hbr c (by rw [e]; simp [hcm])).1
    have e1 := hostname_dotted_bracket name h (':' :: (p ++ ['/'])) hT.1 hT.2 hh hbr
    have e2 := port_dotted_bracket name a b p '/' [] hT.1 hTc has hbs hb hp hdig (by decide)
    simp only [hc, if_true, List.cons_append, List.append_assoc, List.nil_append]
    rw [e1]
    rw [e] at *
    simp only [List.cons_append, List.append_assoc, List.nil_append]
    rw [e2]

/-! ## Claims -/

/-- C1: for every descriptor built by `lo_address_new_with_proto` with protocol
UDP, TCP or UNIX, any host (the null pointer or a string) and any non-null port,
`lo_url_get_protocol_id` of the URL rendered by `lo_address_get_url` is the
protocol of the descriptor. -/
theorem protocol_id_of_rendered_url (proto : Int) (host : Option (List Char))
    (port : List Char) (hproto : proto = LO_UDP ∨ proto = LO_TCP ∨ proto = LO_UNIX) :
    ∃ d u, lo_address_new_with_proto proto (CStr.ofOption host) (.str port) = some d
      ∧ lo_address_get_url d = some u
      ∧ (lo_url_get_protocol_id (some u)).1 = d.protocol := by
  rcases hproto with rfl | rfl | rfl
  · cases host with
    | none =>
        refine ⟨_, _, rfl, get_url_eq _ "udp".toList "localhost".toList port rfl rfl rfl, ?_⟩
        simp [lo_url_get_protocol_id]
    | some h =>
        refine ⟨_, _, rfl, get_url_eq _ "udp".toList h port rfl rfl rfl, ?_⟩
        simp [lo_url_get_protocol_id]
  · cases host with
    | none =>
        refine ⟨_, _, rfl, get_url_eq _ "tcp".toList "localhost".toList port rfl rfl rfl, ?_⟩
        simp [lo_url_get_protocol_id]
    | some h =>
        refine ⟨_, _, rfl, get_url_eq _ "tcp".toList h port rfl rfl rfl, ?_⟩
        simp [lo_url_get_protocol_id]
  · cases host with
    | none =>
        refine ⟨_, _, rfl, get_url_eq _ "unix".toList "localhost".toList port rfl rfl rfl, ?_⟩
        simp [lo_url_get_protocol_id]
    | some h =>
        refine ⟨_, _, rfl, get_url_eq _ "unix".toList "localhost".toList port rfl rfl rfl, ?_⟩
        simp [lo_url_get_protocol_id]

theorem protocol_id_of_rendered_url_witness :
    (LO_UNIX = LO_UDP ∨ LO_UNIX = LO_TCP ∨ LO_UNIX = LO_UNIX) ∧
    ∃ d u, lo_address_new_with_proto LO_UNIX (CStr.ofOption none) (.str "/tmp/sock".toList) = some d
      ∧ lo_address_get_url d = some u
      ∧ (lo_url_get_protocol_id (some u)).1 = d.protocol :=
  ⟨by decide, protocol_id_of_rendered_url LO_UNIX none "/tmp/sock".toList (by decide)⟩

/-- C3: for every scheme `osc://`, `osc.udp://`, `osc.tcp://`, every non-empty
host without `[`, `:` and `/`, and every non-empty string of decimal digits,
`lo_address_new_from_url` on scheme, host, `:`, digits, `/` returns a descriptor
with that host, that port, and protocol UDP (TCP for `osc.tcp://`); the warning
that UDP is assumed is written exactly once for the bare scheme `osc://` (and
nothing is written for the other two). -/
theorem new_from_url_host_port (S : String) (h p : List Char)
    (hS : S = "osc://" ∨ S = "osc.udp://" ∨ S = "osc.tcp://")
    (hh : h ≠ []) (hplain : ∀ c ∈ h, c ≠ '[' ∧ c ≠ ':' ∧ c ≠ '/')
    (hp : p ≠ []) (hdig : ∀ c ∈ p, c.isDigit = true) :
    ∃ a, lo_address_new_from_url (some (S.toList ++ h ++ ":".toList ++ p ++ "/".toList))
          = (some a, if S = "osc://" then [Diag.assumingUdp] else [])
      ∧ a.host = .str h ∧ a.port = .str p
      ∧ a.protocol = (if S = "osc.tcp://" then LO_TCP else LO_UDP) := by
  have hcolon : ∀ c ∈ h, c ≠ ':' := fun c hc => (hplain c hc).2.1
  rcases hS with rfl | rfl | rfl
  · have e1 := hostname_bare h ':' (p ++ ['/']) hh hplain (Or.inr (Or.inl rfl))
    have e2 := port_bare h p '/' [] hh hcolon hp hdig (by decide)
    simp only [String.toList, List.cons_append, List.nil_append, List.append_assoc]
    simp [lo_address_new_from_url, lo_url_get_protocol_id, e1, e2, lo_address_new_with_proto,
      LO_UDP, LO_TCP, LO_UNIX, strdup, CStr.nonNull]
  · have e1 := hostname_dotted "udp".toList h ':' (p ++ ['/']) (by simp) (by decide) hh hplain
      (Or.inr (Or.inl rfl))
    have e2 := port_dotted "udp".toList h p '/' [] (by simp) (by decide) hh hcolon hp hdig
      (by decide)
    simp only [String.toList, List.cons_append, List.nil_append, List.append_assoc] at e1 e2 ⊢
    simp [lo_address_new_from_url, lo_url_get_protocol_id, e1, e2, lo_address_new_with_proto,
      LO_UDP, LO_TCP, LO_UNIX, strdup, CStr.nonNull]
  · have e1 := hostname_dotted "tcp".toList h ':' (p ++ ['/']) (by simp) (by decide) hh hplain
      (Or.inr (Or.inl rfl))
    have e2 := port_dotted "tcp".toList h p '/' [] (by simp) (by decide) hh hcolon hp hdig
      (by decide)
    simp only [String.toList, List.cons_append, List.nil_append, List.append_assoc] at e1 e2 ⊢
    simp [lo_address_new_from_url, lo_url_get_protocol_id, e1, e2, lo_address_new_with_proto,
      LO_UDP, LO_TCP, LO_UNIX, strdup, CStr.nonNull]

theorem new_from_url_host_port_witness :
    ∃ a, lo_address_new_from_url
            (some ("osc://".toList ++ "host".toList ++ ":".toList ++ "1234".toList ++ "/".toList))
          = (some a, if "osc://" = "osc://" then [Diag.assumingUdp] else [])
      ∧ a.host = .str "host".toList ∧ a.port = .str "1234".toList
      ∧ a.protocol = (if "osc://" = "osc.tcp://" then LO_TCP else LO_UDP) :=
  new_from_url_host_port "osc://" "host".toList "1234".toList (Or.inl rfl) (by decide)
    (by decide) (by decide) (by decide)

/-- C2 (counterexample): the UNIX descriptor with socket path `/tmp/sock` renders
as `osc.unix://localhost:/tmp/sock/`; parsing that URL and rendering again gives
`osc.unix://localhost:/tmp/sock//`, which is a different string. -/
theorem unix_render_not_idempotent :
    (lo_address_new_with_proto LO_UNIX .null (.str "/tmp/sock".toList)).bind lo_address_get_url
        = some "osc.unix://localhost:/tmp/sock/".toList
      ∧ (lo_address_new_from_url (some "osc.unix://localhost:/tmp/sock/".toList)).1.bind
          lo_address_get_url = some "osc.unix://localhost:/tmp/sock//".toList
      ∧ (lo_address_new_from_url (some "osc.unix://localhost:/tmp/sock/".toList)).1.bind
          lo_address_get_url ≠ some "osc.unix://localhost:/tmp/sock/".toList := by
  decide

/-- C2 (amended): for every UDP or TCP descriptor whose port is a non-empty
string of decimal digits and whose host is non-empty and either has none of
`[`, `:`, `/`, or is a literal with a `:`, without `]` and `/`, in which no
decimal digit follows the first `:`: with `u` the URL rendered by
`lo_address_get_url`, `lo_address_new_from_url u` returns a descriptor whose
rendered URL is `u` again. -/
theorem render_parse_render (d : Address) (h p : List Char)
    (hproto : d.protocol = LO_UDP ∨ d.protocol = LO_TCP)
    (hhost : d.host = .str h) (hport : d.port = .str p)
    (hh : h ≠ []) (hp : p ≠ []) (hdig : ∀ c ∈ p, c.isDigit = true)
    (hshape : (∀ c ∈ h, c ≠ '[' ∧ c ≠ ':' ∧ c ≠ '/')
      ∨ (':' ∈ h ∧ (∀ c ∈ h, c ≠ ']' ∧ c ≠ '/') ∧ digitAfterFirstColon h = false)) :
    ∃ u d2, lo_address_get_url d = some u
      ∧ (lo_address_new_from_url (some u)).1 = some d2
      ∧ lo_address_get_url d2 = some u := by
  obtain ⟨name, hPn, hn⟩ : ∃ name : List Char,
      ((d.protocol = LO_UDP ∧ name = "udp".toList) ∨ (d.protocol = LO_TCP ∧ name = "tcp".toList))
      ∧ get_protocol_name d.protocol = .str name := by
    rcases hproto with hu | ht
    · exact ⟨"udp".toList, Or.inl ⟨hu, rfl⟩, by rw [hu]; rfl⟩
    · exact ⟨"tcp".toList, Or.inr ⟨ht, rfl⟩, by rw [ht]; rfl⟩
  have hnew : ∃ d2, lo_address_new_with_proto d.protocol (.str h) (.str p) = some d2
      ∧ d2.protocol = d.protocol ∧ d2.host = .str h ∧ d2.port = .str p := by
    rcases hproto with hu | ht
    · rw [hu]; exact ⟨_, rfl, rfl, rfl, rfl⟩
    · rw [ht]; exact ⟨_, rfl, rfl, rfl, rfl⟩
  obtain ⟨d2, hd2, h2p, h2h, h2port⟩ := hnew
  refine ⟨_, d2, get_url_eq d name h p hn hhost hport, ?_, ?_⟩
  · rw [reparse_inet d.protocol name h p hPn hh hp hdig hshape, hd2]
  · exact get_url_eq d2 name h p (by rw [h2p]; exact hn) h2h h2port

theorem render_parse_render_witness :
    ∃ u d2,
      lo_address_get_url
          ⟨.str "::1".toList, -1, .str "9000".toList, LO_TCP, none, 0, .null, -1, ⟨[], 0, .null⟩⟩
        = some u
      ∧ (lo_address_new_from_url (some u)).1 = some d2
      ∧ lo_address_get_url d2 = some u :=
  render_parse_render
    ⟨.str "::1".toList, -1, .str "9000".toList, LO_TCP, none, 0, .null, -1, ⟨[], 0, .null⟩⟩
    "::1".toList "9000".toList (Or.inr rfl) rfl rfl (by decide) (by decide) (by decide)
    (Or.inr ⟨by decide, by decide, by decide⟩)

/-- C4 (the code at the failing input): on `osc.udp://[2001:470::1]:9000/` the
port extractor returns `470`, a digit run from inside the bracketed literal, and
not the port `9000` that follows the closing bracket. -/
theorem port_taken_inside_brackets :
    lo_url_get_port "osc.udp://[2001:470::1]:9000/".toList = .str "470".toList := by
  decide

/-- C5 (the code at the failing input): on `osc://[::1]:9000/` the host extractor
returns the null pointer, not the literal `::1`. -/
theorem hostname_bare_bracket_null :
    lo_url_get_hostname "osc://[::1]:9000/".toList = .null := by
  decide

/-- C6 (the code at the failing inputs): on `osc.udp://host/foo`, a URL without
port, the path extractor returns `host/foo` and not the path `/foo`; on
`osc://host/foo` it returns its scratch buffer with nothing stored in it. On
the first URL `lo_url_get_hostname` ends the host at the `/`, and on
`osc.unix://host/foo` the path extractor does return `/foo`. -/
theorem path_without_port_keeps_host :
    lo_url_get_path ("osc.udp://".toList ++ "host".toList ++ [] ++ "/foo".toList)
        = .str "host/foo".toList
      ∧ lo_url_get_path ("osc.udp://".toList ++ "host".toList ++ [] ++ "/foo".toList)
        ≠ .str "/foo".toList
      ∧ lo_url_get_path ("osc://".toList ++ "host".toList ++ [] ++ "/foo".toList) = .uninit
      ∧ lo_url_get_hostname "osc.udp://host/foo".toList = .str "host".toList
      ∧ lo_url_get_path "osc.unix://host/foo".toList = .str "/foo".toList := by
  decide

/-- Path extraction where a port is present: for every scheme `osc://`,
`osc.udp://`, `osc.tcp://`, every non-empty host without `[`, `:` and `/`, every
port suffix made of `:` and a non-empty string of decimal digits, and every path
that begins with `/` and has no white space, `lo_url_get_path` on scheme, host,
port suffix, path returns exactly the path. -/
theorem path_after_port (S : String) (h d path : List Char)
    (hS : S = "osc://" ∨ S = "osc.udp://" ∨ S = "osc.tcp://")
    (hh : h ≠ []) (hplain : ∀ c ∈ h, c ≠ '[' ∧ c ≠ ':' ∧ c ≠ '/')
    (hd : d ≠ []) (hdig : ∀ c ∈ d, c.isDigit = true)
    (hslash : path.head? = some '/') (hsp : ∀ c ∈ path, isspace c = false) :
    lo_url_get_path (S.toList ++ h ++ (":".toList ++ d) ++ path) = .str path := by
  have hcolon : ∀ c ∈ h, c ≠ ':' := fun c hc => (hplain c hc).2.1
  cases path with
  | nil => simp at hslash
  | cons x q =>
      simp at hslash
      subst hslash
      have hq : ∀ c ∈ q, isspace c = false := fun c hc => hsp c (by simp [hc])
      rcases hS with rfl | rfl | rfl
      · have e := path_bare h d q hh hcolon hd hdig hq
        simpa using e
      · have e := path_dotted "udp".toList h d q (by simp) (by decide) hh hcolon hd hdig hq
        simpa using e
      · have e := path_dotted "tcp".toList h d q (by simp) (by decide) hh hcolon hd hdig hq
        simpa using e

theorem path_after_port_witness :
    lo_url_get_path ("osc.udp://".toList ++ "host".toList ++ (":".toList ++ "7770".toList)
      ++ "/foo".toList) = .str "/foo".toList :=
  path_after_port "osc.udp://" "host".toList "7770".toList "/foo".toList (Or.inr (Or.inl rfl))
    (by decide) (by decide) (by decide) (by decide) (by decide) (by decide)

/-- C7 (the code at the failing input): on `osc.unix:///a:1b` (empty authority,
socket path `/a:1b`) `lo_address_new_from_url` returns the UNIX descriptor with
host `localhost` whose port field is `b`, not the socket path `/a:1b`. -/
theorem unix_path_with_colon_cut :
    (lo_address_new_from_url (some ("osc.unix://".toList ++ [] ++ "/a:1b".toList))).1
      = lo_address_new_with_proto LO_UNIX .null (.str "b".toList)
    ∧ (lo_address_new_from_url (some ("osc.unix://".toList ++ [] ++ "/a:1b".toList))).1.map
        (fun a => (a.protocol, a.host, a.port))
      = some (LO_UNIX, .str "localhost".toList, .str "b".toList) := by
  decide

/-- C8 (the code at the failing input): on `osc`, a proper beginning of `osc://`,
`lo_url_get_protocol` returns `udp` and writes the warning that UDP is assumed,
where the claim has the null pointer; `lo_url_get_protocol_id` returns -1. -/
theorem protocol_of_truncated_scheme :
    lo_url_get_protocol (some "osc".toList) = (.str "udp".toList, [Diag.assumingUdp])
      ∧ lo_url_get_protocol_id (some "osc".toList) = (-1, []) := by
  decide

/-- C9 (counterexample): `osc:garbage` begins with none of `osc://`,
`osc.udp://`, `osc.tcp://`, `osc.unix://`, and `lo_address_new_from_url` returns
the UDP descriptor with the default host `localhost` and no port. -/
theorem new_from_url_defaulted_descriptor :
    (lo_address_new_from_url (some "osc:garbage".toList)).1
        = lo_address_new_with_proto LO_UDP .null .null
      ∧ (lo_address_new_from_url (some "osc:garbage".toList)).1.map
          (fun a => (a.protocol, a.host, a.port))
        = some (LO_UDP, .str "localhost".toList, .null)
      ∧ (lo_address_new_from_url (some "osc:garbage".toList)).1 ≠ none := by
  decide

/-- C9 (amended): for every string that begins with none of `osc:`, `osc.udp:`,
`osc.tcp:`, `osc.unix:`, `lo_address_new_from_url` returns no descriptor. -/
theorem new_from_url_absent (u : List Char)
    (h1 : ¬ "osc:".toList <+: u) (h2 : ¬ "osc.udp:".toList <+: u)
    (h3 : ¬ "osc.tcp:".toList <+: u) (h4 : ¬ "osc.unix:".toList <+: u) :
    (lo_address_new_from_url (some u)).1 = none := by
  have hid : lo_url_get_protocol_id (some u) = (-1, []) := by
    have k1 : ¬ u.take 4 = "osc:".toList := fun e => h1 (e ▸ List.take_prefix 4 u)
    have k2 : ¬ u.take 8 = "osc.udp:".toList := fun e => h2 (e ▸ List.take_prefix 8 u)
    have k3 : ¬ u.take 8 = "osc.tcp:".toList := fun e => h3 (e ▸ List.take_prefix 8 u)
    have k4 : ¬ u.take 9 = "osc.unix:".toList := fun e => h4 (e ▸ List.take_prefix 9 u)
    simp only [lo_url_get_protocol_id, k1, k2, k3, k4, if_false]
  cases u with
  | nil => rfl
  | cons x xs =>
      simp only [lo_address_new_from_url, hid]
      simp [LO_UDP, LO_TCP, LO_UNIX]

theorem new_from_url_absent_witness :
    (lo_address_new_from_url (some "not a url".toList)).1 = none :=
  new_from_url_absent "not a url".toList (by decide) (by decide) (by decide) (by decide)

/-- C10 (the code at the failing input): on `osc`, a proper beginning of
`osc://`, each of `lo_url_get_hostname`, `lo_url_get_port` and `lo_url_get_path`
returns its scratch buffer with nothing stored in it, not the null pointer. -/
theorem extractors_return_unwritten_buffer :
    lo_url_get_hostname "osc".toList = .uninit
      ∧ lo_url_get_port "osc".toList = .uninit
      ∧ lo_url_get_path "osc".toList = .uninit := by
  decide

/-! ## Claims on rendering, construction and TTL -/

/-- The measuring pass and the rendered string of `lo_address_get_url`. -/
theorem get_url_run_eq (a : Address) (name host port : List Char)
    (hn : get_protocol_name a.protocol = .str name)
    (hh : a.host = .str host) (hp : a.port = .str port) :
    lo_address_get_url_run a
      = some (((name.length + (if ':' ∈ host then host.length + 2 else host.length)
            + port.length + 9 : Nat) : Int),
          'o' :: 's' :: 'c' :: '.' :: (name ++ ':' :: '/' :: '/' ::
          ((if ':' ∈ host then '[' :: (host ++ [']']) else host) ++ ':' :: (port ++ ['/'])))) := by
  unfold lo_address_get_url_run
  rw [hh]
  simp only [hn, hh, hp]
  by_cases hq : ':' ∈ host
  · simp [hq, printfOut]
    constructor
    · omega
    · split <;> omega
  · simp [hq, printfOut]
    constructor
    · omega
    · split <;> omega

/-- C11: for every descriptor whose host and port are strings and whose
protocol is UDP, TCP or UNIX, `lo_address_get_url` returns exactly `osc.`, the
protocol name (`udp`, `tcp`, `unix`), `://`, the host (between `[` and `]` when
it contains `:`), `:`, the port and `/`; the length the measuring pass computes
is the length of the returned string, so nothing is cut off, whatever the
lengths of host and port. -/
theorem get_url_exact (a : Address) (host port : List Char)
    (hproto : a.protocol = LO_UDP ∨ a.protocol = LO_TCP ∨ a.protocol = LO_UNIX)
    (hh : a.host = .str host) (hp : a.port = .str port) :
    lo_address_get_url a
        = some ("osc.".toList
            ++ (if a.protocol = LO_UDP then "udp".toList
                else if a.protocol = LO_TCP then "tcp".toList else "unix".toList)
            ++ "://".toList
            ++ (if ':' ∈ host then "[".toList ++ host ++ "]".toList else host)
            ++ ":".toList ++ port ++ "/".toList)
      ∧ ∃ u, lo_address_get_url a = some u
          ∧ lo_address_get_url_run a = some ((u.length : Int), u) := by
  obtain ⟨name, hname, hn⟩ : ∃ name : List Char,
      name = (if a.protocol = LO_UDP then "udp".toList
                else if a.protocol = LO_TCP then "tcp".toList else "unix".toList)
      ∧ get_protocol_name a.protocol = .str name := by
    rcases hproto with h | h | h <;> rw [h] <;> exact ⟨_, rfl, by decide⟩
  have e1 := get_url_eq a name host port hn hh hp
  have e2 := get_url_run_eq a name host port hn hh hp
  refine ⟨?_, _, e1, ?_⟩
  · rw [e1, ← hname]
    by_cases hq : ':' ∈ host <;> simp [hq]
  · rw [e2]
    by_cases hq : ':' ∈ host
    · simp [hq]; omega
    · simp [hq]; omega

theorem get_url_exact_witness :
    lo_address_get_url
        ⟨.str "::1".toList, -1, .str "9000".toList, LO_TCP, none, 0, .null, -1, ⟨[], 0, .null⟩⟩
        = some ("osc.".toList
            ++ (if LO_TCP = LO_UDP then "udp".toList
                else if LO_TCP = LO_TCP then "tcp".toList else "unix".toList)
            ++ "://".toList
            ++ (if ':' ∈ "::1".toList then "[".toList ++ "::1".toList ++ "]".toList
                else "::1".toList)
            ++ ":".toList ++ "9000".toList ++ "/".toList)
      ∧ ∃ u, lo_address_get_url
            ⟨.str "::1".toList, -1, .str "9000".toList, LO_TCP, none, 0, .null, -1, ⟨[], 0, .null⟩⟩
            = some u
          ∧ lo_address_get_url_run
            ⟨.str "::1".toList, -1, .str "9000".toList, LO_TCP, none, 0, .null, -1, ⟨[], 0, .null⟩⟩
            = some ((u.length : Int), u) :=
  get_url_exact
    ⟨.str "::1".toList, -1, .str "9000".toList, LO_TCP, none, 0, .null, -1, ⟨[], 0, .null⟩⟩
    "::1".toList "9000".toList (Or.inr (Or.inl rfl)) rfl rfl

/-- C17: `lo_address_new_with_proto` returns no descriptor exactly when the
protocol is none of UDP, TCP, UNIX; otherwise the descriptor has that protocol,
the given host for UDP and TCP (`localhost` when none is given), `localhost`
for UNIX, the given port or none, ttl -1, no candidate list, socket -1, and no
bound interface. -/
theorem new_with_proto_spec (proto : Int) (host port : Option (List Char)) :
    (lo_address_new_with_proto proto (CStr.ofOption host) (CStr.ofOption port) = none
        ↔ ¬ (proto = LO_UDP ∨ proto = LO_TCP ∨ proto = LO_UNIX))
      ∧ lo_address_new_with_proto proto (CStr.ofOption host) (CStr.ofOption port)
        = if proto = LO_UDP ∨ proto = LO_TCP ∨ proto = LO_UNIX then
            some
              { protocol := proto
                host := .str (if proto = LO_UNIX then "localhost".toList
                              else host.getD "localhost".toList)
                port := CStr.ofOption port
                ttl := -1
                ai := none
                socket := -1
                errnum := 0
                errstr := .null
                addr := { a := [], size := 0, iface := .null } }
          else none := by
  have key : lo_address_new_with_proto proto (CStr.ofOption host) (CStr.ofOption port)
        = if proto = LO_UDP ∨ proto = LO_TCP ∨ proto = LO_UNIX then
            some
              { protocol := proto
                host := .str (if proto = LO_UNIX then "localhost".toList
                              else host.getD "localhost".toList)
                port := CStr.ofOption port
                ttl := -1
                ai := none
                socket := -1
                errnum := 0
                errstr := .null
                addr := { a := [], size := 0, iface := .null } }
          else none := by
    unfold lo_address_new_with_proto
    by_cases hv : proto = LO_UDP ∨ proto = LO_TCP ∨ proto = LO_UNIX
    · have hnot : ¬ (proto ≠ LO_UDP ∧ proto ≠ LO_TCP ∧ proto ≠ LO_UNIX) := by
        rintro ⟨h1, h2, h3⟩
        rcases hv with h | h | h
        · exact h1 h
        · exact h2 h
        · exact h3 h
      rw [if_neg hnot, if_pos hv]
      cases host <;> cases port <;>
        by_cases hu : proto = LO_UNIX <;> simp [hu, strdup, CStr.ofOption, CStr.nonNull]
    · have hall : proto ≠ LO_UDP ∧ proto ≠ LO_TCP ∧ proto ≠ LO_UNIX :=
        ⟨fun h => hv (Or.inl h), fun h => hv (Or.inr (Or.inl h)),
          fun h => hv (Or.inr (Or.inr h))⟩
      rw [if_pos hall, if_neg hv]
  refine ⟨?_, key⟩
  rw [key]
  by_cases hv : proto = LO_UDP ∨ proto = LO_TCP ∨ proto = LO_UNIX
  · simp [hv]
  · simp [hv]

/-- C18: `lo_address_set_ttl` leaves a TCP or UNIX descriptor as it is, so that
the ttl read back is the previous one and a later `lo_address_resolve` or
`lo_address_set_iface` gives what it gave before; on a UDP descriptor it
changes the ttl field only, and `lo_address_get_ttl` then returns the new
value. -/
theorem set_ttl_frame (d : Address) (t : Int) :
    ((d.protocol = LO_TCP ∨ d.protocol = LO_UNIX) →
        lo_address_set_ttl d t = d
        ∧ lo_address_get_ttl (lo_address_set_ttl d t) = lo_address_get_ttl d
        ∧ (∀ os, lo_address_resolve os (lo_address_set_ttl d t) = lo_address_resolve os d)
        ∧ (∀ os iface ip, lo_address_set_iface os (lo_address_set_ttl d t) iface ip
            = lo_address_set_iface os d iface ip))
      ∧ (d.protocol = LO_UDP →
        lo_address_set_ttl d t = { d with ttl := t }
        ∧ lo_address_get_ttl (lo_address_set_ttl d t) = t) := by
  constructor
  · intro hp
    have hne : d.protocol ≠ LO_UDP := by
      rcases hp with h | h <;> rw [h] <;> decide
    have e : lo_address_set_ttl d t = d := by simp [lo_address_set_ttl, hne]
    rw [e]
    exact ⟨rfl, rfl, fun _ => rfl, fun _ _ _ => rfl⟩
  · intro hp
    have e : lo_address_set_ttl d t = { d with ttl := t } := by simp [lo_address_set_ttl, hp]
    rw [e]
    exact ⟨rfl, rfl⟩

theorem set_ttl_frame_witness :
    lo_address_set_ttl
        ⟨.str "h".toList, -1, .str "1".toList, LO_TCP, none, 0, .null, -1, ⟨[], 0, .null⟩⟩ 7
      = ⟨.str "h".toList, -1, .str "1".toList, LO_TCP, none, 0, .null, -1, ⟨[], 0, .null⟩⟩
    ∧ lo_address_get_ttl (lo_address_set_ttl
        ⟨.str "h".toList, -1, .str "1".toList, LO_UDP, none, 0, .null, -1, ⟨[], 0, .null⟩⟩ 7)
      = 7 :=
  ⟨((set_ttl_frame
      ⟨.str "h".toList, -1, .str "1".toList, LO_TCP, none, 0, .null, -1, ⟨[], 0, .null⟩⟩ 7).1
      (Or.inl rfl)).1,
   ((set_ttl_frame
      ⟨.str "h".toList, -1, .str "1".toList, LO_UDP, none, 0, .null, -1, ⟨[], 0, .null⟩⟩ 7).2
      rfl).2⟩

/-! ## Claims on interface selection -/

theorem find_iface_by_ip_eq (fam : Int) (hfam : fam = AF_INET ∨ fam = AF_INET6)
    (b : List Nat) (sa : SockAddr) (t : InAddr) :
    find_iface_by_ip fam b sa t =
      if sa.sa_family = fam ∧ sa.addr.take (addrLen fam) = b.take (addrLen fam) then
        some { t with size := addrLen fam, a := sa.addr.take (addrLen fam) }
      else none := by
  rcases hfam with rfl | rfl
  · by_cases h1 : sa.sa_family = AF_INET
    · by_cases h2 : List.take 4 sa.addr = List.take 4 b
      · simp [find_iface_by_ip, memcmpEq, addrLen, h1, h2]
      · simp [find_iface_by_ip, memcmpEq, addrLen, h1, h2]
    · have hne : AF_INET ≠ AF_INET6 := by decide
      simp [find_iface_by_ip, memcmpEq, addrLen, h1, hne]
  · have hne : AF_INET6 ≠ AF_INET := by decide
    by_cases h1 : sa.sa_family = AF_INET6
    · by_cases h2 : List.take 16 sa.addr = List.take 16 b
      · simp [find_iface_by_ip, memcmpEq, addrLen, h1, h2, hne]
      · simp [find_iface_by_ip, memcmpEq, addrLen, h1, h2, hne]
    · simp [find_iface_by_ip, memcmpEq, addrLen, h1, hne]

theorem find_iface_by_name_eq (fam : Int) (hfam : fam = AF_INET ∨ fam = AF_INET6)
    (name : List Char) (ifa : IfAddrs) (sa : SockAddr) (t : InAddr) :
    find_iface_by_name fam name ifa sa t =
      if sa.sa_family = fam ∧ ifa.ifa_name = name then
        some { t with size := addrLen fam, a := sa.addr.take (addrLen fam) }
      else none := by
  rcases hfam with rfl | rfl
  · simp [find_iface_by_name, addrLen]
  · have hne : AF_INET6 ≠ AF_INET := by decide
    simp [find_iface_by_name, addrLen, hne]

/-- The loop of `lo_inaddr_find_iface` stops at the first entry that satisfies
the selection rule. -/
theorem find_iface_loop_eq (fam : Int) (hfam : fam = AF_INET ∨ fam = AF_INET6)
    (iface : Option (List Char)) (lit : Option (List Nat)) (t : InAddr) (ifs : List IfAddrs) :
    find_iface_loop fam iface lit t ifs =
      match ifs.find? (ifaceSatisfies fam iface lit) with
      | some i => (some i, { t with size := addrLen fam, a := i.bytes.take (addrLen fam) })
      | none => (none, t) := by
  induction ifs with
  | nil => rfl
  | cons ifa next ih =>
      cases haddr : ifa.ifa_addr with
      | none =>
          have hp : ifaceSatisfies fam iface lit ifa = false := by
            simp [ifaceSatisfies, haddr]
          rw [List.find?_cons_of_neg _ (by simp [hp])]
          simp only [find_iface_loop, haddr]
          exact ih
      | some sa =>
          have hbytes : ifa.bytes = sa.addr := by simp [IfAddrs.bytes, haddr]
          by_cases hip : ∃ b, lit = some b ∧ sa.sa_family = fam
              ∧ sa.addr.take (addrLen fam) = b.take (addrLen fam)
          · obtain ⟨b, rfl, h1, h2⟩ := hip
            have hp : ifaceSatisfies fam iface (some b) ifa = true := by
              simp [ifaceSatisfies, haddr, h1, h2]
            rw [List.find?_cons_of_pos _ hp]
            simp [find_iface_loop, haddr, find_iface_by_ip_eq fam hfam, h1, h2, hbytes]
          · have hnoip : (lit.bind fun bytes => find_iface_by_ip fam bytes sa t) = none := by
              cases lit with
              | none => rfl
              | some b =>
                  have : ¬ (sa.sa_family = fam
                      ∧ sa.addr.take (addrLen fam) = b.take (addrLen fam)) :=
                    fun h => hip ⟨b, rfl, h.1, h.2⟩
                  simp [find_iface_by_ip_eq fam hfam, this]
            by_cases hname : ∃ n, iface = some n ∧ sa.sa_family = fam ∧ ifa.ifa_name = n
            · obtain ⟨n, rfl, h1, h2⟩ := hname
              have hp : ifaceSatisfies fam (some n) lit ifa = true := by
                simp [ifaceSatisfies, haddr, h1, h2]
              rw [List.find?_cons_of_pos _ hp]
              simp [find_iface_loop, haddr, hnoip, find_iface_by_name_eq fam hfam, h1, h2,
                hbytes]
            · have hnoname :
                  (iface.bind fun name => find_iface_by_name fam name ifa sa t) = none := by
                cases iface with
                | none => rfl
                | some n =>
                    have : ¬ (sa.sa_family = fam ∧ ifa.ifa_name = n) :=
                      fun h => hname ⟨n, rfl, h.1, h.2⟩
                    simp [find_iface_by_name_eq fam hfam, this]
              have hp : ifaceSatisfies fam iface lit ifa = false := by
                cases lit with
                | none =>
                    cases iface with
                    | none => simp [ifaceSatisfies, haddr]
                    | some n =>
                        have : ¬ (sa.sa_family = fam ∧ ifa.ifa_name = n) :=
                          fun h => hname ⟨n, rfl, h.1, h.2⟩
                        simpa [ifaceSatisfies, haddr] using this
                | some b =>
                    have h1 : ¬ (sa.sa_family = fam
                        ∧ sa.addr.take (addrLen fam) = b.take (addrLen fam)) :=
                      fun h => hip ⟨b, rfl, h.1, h.2⟩
                    cases iface with
                    | none => simpa [ifaceSatisfies, haddr] using h1
                    | some n =>
                        have h2 : ¬ (sa.sa_family = fam ∧ ifa.ifa_name = n) :=
                          fun h => hname ⟨n, rfl, h.1, h.2⟩
                        simp only [ifaceSatisfies, haddr, h1, h2, decide_False, Bool.or_false]
              rw [List.find?_cons_of_neg _ (by simp [hp])]
              simp only [find_iface_loop, haddr, hnoip, hnoname]
              exact ih

/-- C12: with a source IP that is absent or parsed successfully, a successful
enumeration and `fam` one of `AF_INET`, `AF_INET6`, `lo_inaddr_find_iface`
selects the first interface in enumeration order that has an address and
satisfies: a source IP is given, the family is `fam` and the address bytes are
the parsed literal, or a name is given, the family is `fam` and the name is
that name. If there is one, the result is 0 and the binding holds its name and
its address bytes with their size; if there is none, the result is 1 and the
binding is unchanged. -/
theorem find_iface_selects (os : Os) (t : InAddr) (fam : Int)
    (iface ip : Option (List Char)) (ifs : List IfAddrs)
    (hfam : fam = AF_INET ∨ fam = AF_INET6)
    (hparse : ∀ s, ip = some s → (os.inet_pton fam s).1 = 1)
    (henum : os.getifaddrs = some ifs) :
    match ifs.find? (ifaceSatisfies fam iface (ip.map fun s => (os.inet_pton fam s).2)) with
    | some i =>
        (lo_inaddr_find_iface os t fam iface ip).1 = 0
        ∧ (lo_inaddr_find_iface os t fam iface ip).2.1
          = { a := i.bytes.take (addrLen fam), size := addrLen fam, iface := .str i.ifa_name }
    | none =>
        (lo_inaddr_find_iface os t fam iface ip).1 = 1
        ∧ (lo_inaddr_find_iface os t fam iface ip).2.1 = t := by
  have hrc : (match ip with
      | some s => (os.inet_pton fam s).1
      | none => (1 : Int)) = 1 := by
    cases ip with
    | none => rfl
    | some s => exact hparse s rfl
  have hloop := find_iface_loop_eq fam hfam iface (ip.map fun s => (os.inet_pton fam s).2) t ifs
  cases hfind : ifs.find? (ifaceSatisfies fam iface (ip.map fun s => (os.inet_pton fam s).2)) with
  | none =>
      rw [hfind] at hloop
      simp [lo_inaddr_find_iface, hrc, henum, hloop]
  | some i =>
      rw [hfind] at hloop
      simp [lo_inaddr_find_iface, hrc, henum, hloop, strdup]

theorem find_iface_selects_witness :
    match (([⟨"lo".toList, some ⟨AF_INET, [127, 0, 0, 1]⟩⟩,
            ⟨"lo".toList, some ⟨AF_INET6, [0, 0, 0, 0, 0, 0, 0, 0, 0, 0, 0, 0, 0, 0, 0, 1]⟩⟩,
            ⟨"eth0".toList, none⟩,
            ⟨"eth0".toList, some ⟨AF_INET, [10, 0, 0, 5]⟩⟩] : List IfAddrs).find?
          (ifaceSatisfies AF_INET (some "eth0".toList)
            ((none : Option (List Char)).map fun s => ((exampleOs []).inet_pton AF_INET s).2))) with
    | some i =>
        (lo_inaddr_find_iface (exampleOs []) emptyInAddr AF_INET (some "eth0".toList) none).1 = 0
        ∧ (lo_inaddr_find_iface (exampleOs []) emptyInAddr AF_INET (some "eth0".toList) none).2.1
          = { a := i.bytes.take (addrLen AF_INET), size := addrLen AF_INET,
              iface := .str i.ifa_name }
    | none =>
        (lo_inaddr_find_iface (exampleOs []) emptyInAddr AF_INET (some "eth0".toList) none).1 = 1
        ∧ (lo_inaddr_find_iface (exampleOs []) emptyInAddr AF_INET (some "eth0".toList) none).2.1
          = emptyInAddr :=
  find_iface_selects (exampleOs []) emptyInAddr AF_INET (some "eth0".toList) none
    [⟨"lo".toList, some ⟨AF_INET, [127, 0, 0, 1]⟩⟩,
     ⟨"lo".toList, some ⟨AF_INET6, [0, 0, 0, 0, 0, 0, 0, 0, 0, 0, 0, 0, 0, 0, 0, 1]⟩⟩,
     ⟨"eth0".toList, none⟩,
     ⟨"eth0".toList, some ⟨AF_INET, [10, 0, 0, 5]⟩⟩]
    (Or.inl rfl) (by intro s h; cases h) rfl

/-- C14: on a UDP or TCP descriptor, when the resolver returns 0,
`lo_address_resolve` returns 0 and the candidate list is the whole list of the
resolver; when the resolver returns a code other than 0, the result is -1, the
last-error code is that code, the last-error message is the message of the
resolver for it, and the candidate list is empty. On a UNIX descriptor no call
is made, the result is 0 and the descriptor (with its candidate list) is
unchanged. In all cases the candidate list afterwards is the whole list of the
resolver, empty, or the one before. -/
theorem resolve_postcondition (os : Os) (a : Address) :
    ((a.protocol = LO_UDP ∨ a.protocol = LO_TCP) →
        ((os.getaddrinfo a.host a.port PF_UNSPEC
              (if a.protocol = LO_UDP then SOCK_DGRAM else SOCK_STREAM)).1 = 0 →
          (lo_address_resolve os a).1 = 0
          ∧ (lo_address_resolve os a).2.1.ai
            = some (os.getaddrinfo a.host a.port PF_UNSPEC
                (if a.protocol = LO_UDP then SOCK_DGRAM else SOCK_STREAM)).2)
        ∧ ((os.getaddrinfo a.host a.port PF_UNSPEC
              (if a.protocol = LO_UDP then SOCK_DGRAM else SOCK_STREAM)).1 ≠ 0 →
          (lo_address_resolve os a).1 = -1
          ∧ lo_address_errno (lo_address_resolve os a).2.1
            = (os.getaddrinfo a.host a.port PF_UNSPEC
                (if a.protocol = LO_UDP then SOCK_DGRAM else SOCK_STREAM)).1
          ∧ lo_address_errstr os (lo_address_resolve os a).2.1
            = .str (os.gai_strerror (os.getaddrinfo a.host a.port PF_UNSPEC
                (if a.protocol = LO_UDP then SOCK_DGRAM else SOCK_STREAM)).1)
          ∧ (lo_address_resolve os a).2.1.ai = none))
      ∧ (a.protocol = LO_UNIX → lo_address_resolve os a = (0, a, []))
      ∧ ((lo_address_resolve os a).2.1.ai
            = some (os.getaddrinfo a.host a.port PF_UNSPEC
                (if a.protocol = LO_UDP then SOCK_DGRAM else SOCK_STREAM)).2
          ∨ (lo_address_resolve os a).2.1.ai = none
          ∨ (lo_address_resolve os a).2.1.ai = a.ai) := by
  refine ⟨?_, ?_, ?_⟩
  · intro hp
    constructor
    · intro h0
      simp [lo_address_resolve, hp, h0]
    · intro h0
      simp [lo_address_resolve, hp, h0, lo_address_errno, lo_address_errstr, CStr.nonNull]
  · intro hp
    have h1 : ¬ (a.protocol = LO_UDP ∨ a.protocol = LO_TCP) := by
      rw [hp]; decide
    simp [lo_address_resolve, h1]
  · by_cases hp : a.protocol = LO_UDP ∨ a.protocol = LO_TCP
    · by_cases h0 : (os.getaddrinfo a.host a.port PF_UNSPEC
          (if a.protocol = LO_UDP then SOCK_DGRAM else SOCK_STREAM)).1 = 0
      · left; simp [lo_address_resolve, hp, h0]
      · right; left; simp [lo_address_resolve, hp, h0]
    · right; right; simp [lo_address_resolve, hp]

theorem resolve_postcondition_witness :
    (lo_address_resolve (exampleOs [127, 0, 0, 1])
        ⟨.str "localhost".toList, -1, .str "7770".toList, LO_UDP, none, 0, .null, -1,
          ⟨[], 0, .null⟩⟩).2.1.ai = some [⟨AF_INET, SOCK_DGRAM, [127, 0, 0, 1]⟩]
      ∧ lo_address_errno (lo_address_resolve (exampleOs [])
        ⟨.str "nowhere".toList, -1, .str "7770".toList, LO_TCP, none, 0, .null, -1,
          ⟨[], 0, .null⟩⟩).2.1 = -2
      ∧ lo_address_resolve (exampleOs [])
          ⟨.str "localhost".toList, -1, .str "/tmp/s".toList, LO_UNIX, none, 0, .null, -1,
            ⟨[], 0, .null⟩⟩
        = (0, ⟨.str "localhost".toList, -1, .str "/tmp/s".toList, LO_UNIX, none, 0, .null, -1,
            ⟨[], 0, .null⟩⟩, []) :=
  ⟨(((resolve_postcondition (exampleOs [127, 0, 0, 1])
        ⟨.str "localhost".toList, -1, .str "7770".toList, LO_UDP, none, 0, .null, -1,
          ⟨[], 0, .null⟩⟩).1 (Or.inl rfl)).1 (by decide)).2,
   (((resolve_postcondition (exampleOs [])
        ⟨.str "nowhere".toList, -1, .str "7770".toList, LO_TCP, none, 0, .null, -1,
          ⟨[], 0, .null⟩⟩).1 (Or.inr rfl)).2 (by decide)).2.1,
   (resolve_postcondition (exampleOs [])
        ⟨.str "localhost".toList, -1, .str "/tmp/s".toList, LO_UNIX, none, 0, .null, -1,
          ⟨[], 0, .null⟩⟩).2.1 rfl⟩

theorem resolve_keeps_binding (os : Os) (a : Address) :
    (lo_address_resolve os a).2.1.addr = a.addr
      ∧ OsCall.getifaddrs ∉ (lo_address_resolve os a).2.2 := by
  unfold lo_address_resolve
  by_cases hp : a.protocol = LO_UDP ∨ a.protocol = LO_TCP
  · by_cases h0 : (os.getaddrinfo a.host a.port PF_UNSPEC
          (if a.protocol = LO_UDP then SOCK_DGRAM else SOCK_STREAM)).1 = 0
    · simp [hp, h0]
    · simp [hp, h0]
  · simp [hp]

/-- C15: on a descriptor without candidate list `lo_address_set_iface` first
runs `lo_address_resolve`. If the list is still absent, it returns 2, the
descriptor is the one `lo_address_resolve` left, the bound interface is
unchanged and no enumeration of interfaces is among the calls. Otherwise its
result and the bound interface are those of `lo_inaddr_find_iface` with the
family of the first candidate. -/
theorem set_iface_after_resolve (os : Os) (t : Address) (iface ip : Option (List Char))
    (hnone : t.aiFirst = none) :
    ((lo_address_resolve os t).2.1.aiFirst = none →
        lo_address_set_iface os t iface ip
          = (2, (lo_address_resolve os t).2.1, (lo_address_resolve os t).2.2)
        ∧ (lo_address_set_iface os t iface ip).2.1.addr = t.addr
        ∧ OsCall.getifaddrs ∉ (lo_address_set_iface os t iface ip).2.2)
      ∧ (∀ first, (lo_address_resolve os t).2.1.aiFirst = some first →
        (lo_address_set_iface os t iface ip).1
          = (lo_inaddr_find_iface os t.addr first.ai_family iface ip).1
        ∧ (lo_address_set_iface os t iface ip).2.1.addr
          = (lo_inaddr_find_iface os t.addr first.ai_family iface ip).2.1) := by
  have hk := resolve_keeps_binding os t
  constructor
  · intro h
    have e : lo_address_set_iface os t iface ip
        = (2, (lo_address_resolve os t).2.1, (lo_address_resolve os t).2.2) := by
      simp [lo_address_set_iface, hnone, h]
    rw [e]
    exact ⟨rfl, hk.1, hk.2⟩
  · intro first h
    simp [lo_address_set_iface, hnone, h, hk.1]

theorem set_iface_after_resolve_witness :
    (lo_address_set_iface (exampleOs [127, 0, 0, 1])
        ⟨.str "localhost".toList, -1, .str "7770".toList, LO_UDP, none, 0, .null, -1,
          ⟨[], 0, .null⟩⟩ (some "lo".toList) none).1
      = (lo_inaddr_find_iface (exampleOs [127, 0, 0, 1]) ⟨[], 0, .null⟩ AF_INET
          (some "lo".toList) none).1
    ∧ (lo_address_set_iface (exampleOs [127, 0, 0, 1])
        ⟨.str "localhost".toList, -1, .str "7770".toList, LO_UDP, none, 0, .null, -1,
          ⟨[], 0, .null⟩⟩ (some "lo".toList) none).2.1.addr
      = (lo_inaddr_find_iface (exampleOs [127, 0, 0, 1]) ⟨[], 0, .null⟩ AF_INET
          (some "lo".toList) none).2.1 :=
  (set_iface_after_resolve (exampleOs [127, 0, 0, 1])
    ⟨.str "localhost".toList, -1, .str "7770".toList, LO_UDP, none, 0, .null, -1,
      ⟨[], 0, .null⟩⟩ (some "lo".toList) none rfl).2
    ⟨AF_INET, SOCK_DGRAM, [127, 0, 0, 1]⟩ (by decide)

/-- C16 (counterexample): a UDP descriptor with last-error code 0 that holds a
candidate list; `lo_address_set_iface` with the name of no interface returns 1
(no matching interface), and `lo_address_errno` still returns 0. -/
theorem set_iface_failure_not_recorded :
    (lo_address_set_iface (exampleOs [127, 0, 0, 1])
        ⟨.str "localhost".toList, -1, .str "7770".toList, LO_UDP,
          some [⟨AF_INET, SOCK_DGRAM, [127, 0, 0, 1]⟩], 0, .null, -1, ⟨[], 0, .null⟩⟩
        (some "nosuch0".toList) none).1 = 1
      ∧ lo_address_errno (lo_address_set_iface (exampleOs [127, 0, 0, 1])
        ⟨.str "localhost".toList, -1, .str "7770".toList, LO_UDP,
          some [⟨AF_INET, SOCK_DGRAM, [127, 0, 0, 1]⟩], 0, .null, -1, ⟨[], 0, .null⟩⟩
        (some "nosuch0".toList) none).2.1 = 0 := by
  decide

/-- C16 (amended): every failure of the resolver is recorded in the last-error
slot: after a call of `lo_address_resolve` that returns a failure result,
`lo_address_errno` returns the code of the resolver, which is not 0; the same
holds after a call of `lo_address_set_iface` on a descriptor without candidate
list whose resolution fails, which returns 2. -/
theorem resolver_failure_recorded (os : Os) (a : Address)
    (hfail : (lo_address_resolve os a).1 ≠ 0) :
    lo_address_errno (lo_address_resolve os a).2.1
        = (os.getaddrinfo a.host a.port PF_UNSPEC
            (if a.protocol = LO_UDP then SOCK_DGRAM else SOCK_STREAM)).1
      ∧ lo_address_errno (lo_address_resolve os a).2.1 ≠ 0
      ∧ (a.aiFirst = none → ∀ iface ip,
          (lo_address_set_iface os a iface ip).1 = 2
          ∧ lo_address_errno (lo_address_set_iface os a iface ip).2.1
            = (os.getaddrinfo a.host a.port PF_UNSPEC
                (if a.protocol = LO_UDP then SOCK_DGRAM else SOCK_STREAM)).1
          ∧ lo_address_errno (lo_address_set_iface os a iface ip).2.1 ≠ 0) := by
  by_cases hp : a.protocol = LO_UDP ∨ a.protocol = LO_TCP
  · by_cases h0 : (os.getaddrinfo a.host a.port PF_UNSPEC
          (if a.protocol = LO_UDP then SOCK_DGRAM else SOCK_STREAM)).1 = 0
    · exact absurd (by simp [lo_address_resolve, hp, h0]) hfail
    · have e : lo_address_resolve os a
          = (-1, { a with
                errnum := (os.getaddrinfo a.host a.port PF_UNSPEC
                  (if a.protocol = LO_UDP then SOCK_DGRAM else SOCK_STREAM)).1
                errstr := .str (os.gai_strerror (os.getaddrinfo a.host a.port PF_UNSPEC
                  (if a.protocol = LO_UDP then SOCK_DGRAM else SOCK_STREAM)).1)
                ai := none },
              [OsCall.getaddrinfo a.host a.port PF_UNSPEC
                (if a.protocol = LO_UDP then SOCK_DGRAM else SOCK_STREAM)]) := by
        simp [lo_address_resolve, hp, h0]
      refine ⟨by rw [e]; rfl, by rw [e]; exact h0, ?_⟩
      intro hnone iface ip
      have haf : (lo_address_resolve os a).2.1.aiFirst = none := by rw [e]; rfl
      have e2 : lo_address_set_iface os a iface ip
          = (2, (lo_address_resolve os a).2.1, (lo_address_resolve os a).2.2) := by
        simp [lo_address_set_iface, hnone, haf]
      rw [e2, e]
      exact ⟨rfl, rfl, h0⟩
  · exact absurd (by simp [lo_address_resolve, hp]) hfail

theorem resolver_failure_recorded_witness :
    lo_address_errno (lo_address_resolve (exampleOs [])
        ⟨.str "nowhere".toList, -1, .str "7770".toList, LO_TCP, none, 0, .null, -1,
          ⟨[], 0, .null⟩⟩).2.1 ≠ 0 :=
  (resolver_failure_recorded (exampleOs [])
    ⟨.str "nowhere".toList, -1, .str "7770".toList, LO_TCP, none, 0, .null, -1,
      ⟨[], 0, .null⟩⟩ (by decide)).2.1

/-- C19 (the code at the failing input): a UDP descriptor for `localhost` is
resolved twice, the resolver answering `127.0.0.1` and then `127.0.0.2`, and
freed. The calls are the two `getaddrinfo` and one `freeaddrinfo`, of the second
list; the first list is never released. -/
theorem resolve_twice_leaks_first_list :
    (let d : Address :=
        ⟨.str "localhost".toList, -1, .str "7770".toList, LO_UDP, none, 0, .null, -1,
          ⟨[], 0, .null⟩⟩
     let r1 := lo_address_resolve (exampleOs [127, 0, 0, 1]) d
     let r2 := lo_address_resolve (exampleOs [127, 0, 0, 2]) r1.2.1
     r1.2.1.ai = some [⟨AF_INET, SOCK_DGRAM, [127, 0, 0, 1]⟩]
     ∧ r2.2.1.ai = some [⟨AF_INET, SOCK_DGRAM, [127, 0, 0, 2]⟩]
     ∧ r1.2.2 ++ r2.2.2 ++ lo_address_free (some r2.2.1)
        = [OsCall.getaddrinfo (.str "localhost".toList) (.str "7770".toList) PF_UNSPEC SOCK_DGRAM,
           OsCall.getaddrinfo (.str "localhost".toList) (.str "7770".toList) PF_UNSPEC SOCK_DGRAM,
           OsCall.freeaddrinfo [⟨AF_INET, SOCK_DGRAM, [127, 0, 0, 2]⟩]]
     ∧ OsCall.freeaddrinfo [⟨AF_INET, SOCK_DGRAM, [127, 0, 0, 1]⟩]
        ∉ r1.2.2 ++ r2.2.2 ++ lo_address_free (some r2.2.1)) := by
  decide

/-! ## Claims on the scratch buffers -/

/-- A token stored by `scan` was stored before, or is no longer than the input
still to be read. -/
theorem scan_stored_bound (ds : List Directive) :
    ∀ (inp : List Char) (acc : List (List Char)) (tok : List Char),
      tok ∈ (scan ds inp acc).stored → tok ∈ acc ∨ tok.length ≤ inp.length := by
  induction ds with
  | nil =>
      intro inp acc tok h
      simp [scan] at h
      exact Or.inl h
  | cons d ds ih =>
      intro inp acc tok h
      cases d with
      | white =>
          simp only [scan] at h
          rcases ih _ _ _ h with h1 | h1
          · exact Or.inl h1
          · exact Or.inr (le_trans h1 ((List.dropWhile_sublist _).length_le))
      | lit c =>
          cases inp with
          | nil =>
              simp [scan, inputFailure] at h
              exact Or.inl h
          | cons x rest =>
              by_cases hx : x = c
              · simp only [scan, hx, if_true] at h
                rcases ih _ _ _ h with h1 | h1
                · exact Or.inl h1
                · exact Or.inr (by simp; omega)
              · simp [scan, hx, matchingFailure] at h
                exact Or.inl h
      | str sup =>
          simp only [scan] at h
          have hlen : (inp.dropWhile isspace).length ≤ inp.length :=
            (List.dropWhile_sublist _).length_le
          cases hd : inp.dropWhile isspace with
          | nil =>
              rw [hd] at h
              simp [inputFailure] at h
              exact Or.inl h
          | cons x rest =>
              rw [hd] at h hlen
              simp only at h
              rcases ih _ _ _ h with h1 | h1
              · cases sup with
                | true => exact Or.inl (by simpa using h1)
                | false =>
                    simp only [Bool.false_eq_true, if_false, List.mem_append,
                      List.mem_singleton] at h1
                    rcases h1 with h2 | h2
                    · exact Or.inl h2
                    · right
                      rw [h2]
                      exact le_trans ((List.takeWhile_sublist _).length_le) hlen
              · right
                exact le_trans h1 (le_trans ((List.dropWhile_sublist _).length_le) hlen)
      | set sup neg rs =>
          cases inp with
          | nil =>
              simp [scan, inputFailure] at h
              exact Or.inl h
          | cons x rest =>
              by_cases hx : inScanset neg rs x = true
              · simp only [scan, hx, if_true] at h
                rcases ih _ _ _ h with h1 | h1
                · cases sup with
                  | true => exact Or.inl (by simpa using h1)
                  | false =>
                      simp only [Bool.false_eq_true, if_false, List.mem_append,
                        List.mem_singleton] at h1
                      rcases h1 with h2 | h2
                      · exact Or.inl h2
                      · right
                        rw [h2]
                        exact (List.takeWhile_sublist _).length_le
                · right
                  exact le_trans h1 ((List.dropWhile_sublist _).length_le)
              · simp [scan, hx, matchingFailure] at h
                exact Or.inl h
      | unsupported =>
          simp [scan, matchingFailure] at h
          exact Or.inl h

/-- Every scan pattern of `address.c` begins with the ordinary character `o`. -/
theorem scanPatterns_head :
    ∀ F ∈ scanPatterns, (parseFormat .text F.toList).head? = some (.lit 'o') := by
  decide

/-- C20: for every string `url` and every scan pattern of `lo_url_get_protocol`,
`lo_url_get_hostname`, `lo_url_get_port` and `lo_url_get_path`, a token the
pattern stores has, with its terminator, at most `strlen(url)` bytes, the size
of the scratch buffer. -/
theorem scan_token_fits (url : List Char) (F : String) (hF : F ∈ scanPatterns)
    (tok : List Char) (htok : tok ∈ (sscanf url F).stored) :
    tok.length + 1 ≤ url.length := by
  have hhead := scanPatterns_head F hF
  unfold sscanf at htok
  cases hds : parseFormat .text F.toList with
  | nil => rw [hds] at hhead; simp at hhead
  | cons d ds =>
      rw [hds] at hhead htok
      simp only [List.head?_cons, Option.some.injEq] at hhead
      subst hhead
      cases url with
      | nil => simp [scan, inputFailure] at htok
      | cons x rest =>
          by_cases hx : x = 'o'
          · simp only [scan, hx, if_true] at htok
            rcases scan_stored_bound ds rest [] tok htok with h1 | h1
            · simp at h1
            · simp; omega
          · simp [scan, hx, matchingFailure] at htok

theorem scan_token_fits_witness :
    "host".toList.length + 1 ≤ "osc://host:1234/".toList.length :=
  scan_token_fits "osc://host:1234/".toList "osc://%[^[:/]" (by decide) "host".toList
    (by decide)

end Liblo
